import Mathlib

/-!
Shallow embedding of parts of the charon translator (Rust MIR → ULLBC) and
proofs about it.  The definitions mirror, function by function, the code in:
  * `src/charon/src/values_utils.rs`   (scalar value conversions)
  * `src/charon/src/gast_utils.rs`     (locals table helpers, body printing)
  * `src/charon/src/bin/charon-driver/translate/translate_functions_to_ullbc.rs`
    (the ULLBC translation: statements, terminators, switch targets, the
    per-body worklist loop, body assembly)
  * `src/charon/src/driver.rs`         (the driver pipeline)
Machine integers are modelled with `Nat`/`Int` plus explicit `% 2^w` where the
Rust code performs a lossy `as` cast.  Fallible Rust functions returning
`Result`/`Option` are modelled with `Except`/`Option`; a Rust `panic!`,
`unwrap` failure or failed `assert!` inside translation is modelled as an
error (the driver catches such panics with `catch_unwind`).
-/

namespace Charon

/-! ## Integer types and scalar values (`values.rs`, `values_utils.rs`) -/

/-- The integer types, as in charon's `IntegerTy` (`types.rs`). -/
inductive IntegerTy where
  | Isize | I8 | I16 | I32 | I64 | I128
  | Usize | U8 | U16 | U32 | U64 | U128
  deriving DecidableEq, Repr

/-- `ScalarValue` from `values.rs`.  The Rust payloads (`isize`, `i8`, …,
`usize`, `u8`, …) are modelled as `Int` (signed) and `Nat` (unsigned); the
range restrictions the Rust types impose are recovered through the
wrap-around applied at every construction site (`from_unchecked_uint`,
`from_unchecked_int`).  `usize`/`isize` are 64 bits wide (the platforms
charon targets). -/
inductive ScalarValue where
  | Isize (v : Int)
  | I8 (v : Int)
  | I16 (v : Int)
  | I32 (v : Int)
  | I64 (v : Int)
  | I128 (v : Int)
  | Usize (v : Nat)
  | U8 (v : Nat)
  | U16 (v : Nat)
  | U32 (v : Nat)
  | U64 (v : Nat)
  | U128 (v : Nat)
  deriving DecidableEq, Repr

namespace ScalarValue

/-- `ScalarValue::get_integer_ty` (`values_utils.rs`). -/
def get_integer_ty : ScalarValue → IntegerTy
  | .Isize _ => .Isize
  | .I8 _ => .I8
  | .I16 _ => .I16
  | .I32 _ => .I32
  | .I64 _ => .I64
  | .I128 _ => .I128
  | .Usize _ => .Usize
  | .U8 _ => .U8
  | .U16 _ => .U16
  | .U32 _ => .U32
  | .U64 _ => .U64
  | .U128 _ => .U128

/-- `ScalarValue::is_int` (`values_utils.rs`). -/
def is_int : ScalarValue → Bool
  | .Isize _ | .I8 _ | .I16 _ | .I32 _ | .I64 _ | .I128 _ => true
  | _ => false

/-- `ScalarValue::is_uint` (`values_utils.rs`). -/
def is_uint : ScalarValue → Bool
  | .Usize _ | .U8 _ | .U16 _ | .U32 _ | .U64 _ | .U128 _ => true
  | _ => false

/-- `ScalarValue::as_uint` (`values_utils.rs`): the `v as u128` zero-extending
casts of the Rust code are the identity on the `Nat` payloads. -/
def as_uint : ScalarValue → Except Unit Nat
  | .Usize v => .ok v
  | .U8 v => .ok v
  | .U16 v => .ok v
  | .U32 v => .ok v
  | .U64 v => .ok v
  | .U128 v => .ok v
  | _ => .error ()

/-- `ScalarValue::uint_is_in_bounds` (`values_utils.rs`). -/
def uint_is_in_bounds (ty : IntegerTy) (v : Nat) : Bool :=
  match ty with
  | .Usize => v ≤ 2 ^ 64 - 1
  | .U8 => v ≤ 2 ^ 8 - 1
  | .U16 => v ≤ 2 ^ 16 - 1
  | .U32 => v ≤ 2 ^ 32 - 1
  | .U64 => v ≤ 2 ^ 64 - 1
  | .U128 => true
  | _ => false

/-- `ScalarValue::from_unchecked_uint` (`values_utils.rs`).  The Rust
`v as uN` casts truncate, hence the `% 2 ^ N`.  On a signed integer type the
Rust code panics ("Expected an unsigned integer kind"); that arm is
unreachable from `from_uint` (the bounds check already failed) and is
modelled by an arbitrary value. -/
def from_unchecked_uint (ty : IntegerTy) (v : Nat) : ScalarValue :=
  match ty with
  | .Usize => .Usize (v % 2 ^ 64)
  | .U8 => .U8 (v % 2 ^ 8)
  | .U16 => .U16 (v % 2 ^ 16)
  | .U32 => .U32 (v % 2 ^ 32)
  | .U64 => .U64 (v % 2 ^ 64)
  | .U128 => .U128 v
  | _ => .U128 0

/-- `ScalarValue::from_uint` (`values_utils.rs`). -/
def from_uint (ty : IntegerTy) (v : Nat) : Except Unit ScalarValue :=
  if !uint_is_in_bounds ty v then .error ()
  else .ok (from_unchecked_uint ty v)

/-- `ScalarValue::as_int` (`values_utils.rs`): the `v as i128` sign-extending
casts are the identity on the `Int` payloads. -/
def as_int : ScalarValue → Except Unit Int
  | .Isize v => .ok v
  | .I8 v => .ok v
  | .I16 v => .ok v
  | .I32 v => .ok v
  | .I64 v => .ok v
  | .I128 v => .ok v
  | _ => .error ()

/-- `ScalarValue::int_is_in_bounds` (`values_utils.rs`). -/
def int_is_in_bounds (ty : IntegerTy) (v : Int) : Bool :=
  match ty with
  | .Isize => decide (-(2 ^ 63) ≤ v ∧ v ≤ 2 ^ 63 - 1)
  | .I8 => decide (-(2 ^ 7) ≤ v ∧ v ≤ 2 ^ 7 - 1)
  | .I16 => decide (-(2 ^ 15) ≤ v ∧ v ≤ 2 ^ 15 - 1)
  | .I32 => decide (-(2 ^ 31) ≤ v ∧ v ≤ 2 ^ 31 - 1)
  | .I64 => decide (-(2 ^ 63) ≤ v ∧ v ≤ 2 ^ 63 - 1)
  | .I128 => true
  | _ => false

/-- The Rust truncating cast `v as iN` for `v : i128`: wrap into
`[-2^(N-1), 2^(N-1))`. -/
def wrap_signed (w : Nat) (v : Int) : Int :=
  (v + 2 ^ (w - 1)) % 2 ^ w - 2 ^ (w - 1)

/-- `ScalarValue::from_unchecked_int` (`values_utils.rs`).  As for
`from_unchecked_uint`, the panicking arm (unsigned type) is unreachable from
`from_int` and modelled by an arbitrary value. -/
def from_unchecked_int (ty : IntegerTy) (v : Int) : ScalarValue :=
  match ty with
  | .Isize => .Isize (wrap_signed 64 v)
  | .I8 => .I8 (wrap_signed 8 v)
  | .I16 => .I16 (wrap_signed 16 v)
  | .I32 => .I32 (wrap_signed 32 v)
  | .I64 => .I64 (wrap_signed 64 v)
  | .I128 => .I128 v
  | _ => .I128 0

/-- `ScalarValue::from_int` (`values_utils.rs`). -/
def from_int (ty : IntegerTy) (v : Int) : Except Unit ScalarValue :=
  if !int_is_in_bounds ty v then .error ()
  else .ok (from_unchecked_int ty v)

end ScalarValue

/-! ## Locals (`gast_utils.rs`) -/

/-- Modelled from the spec: type expressions (`ETy`, from `types.rs`, which is
not part of the sources at hand).  Their structure is irrelevant to the claims
about the locals table, so they are kept as an opaque token. -/
structure ETy where
  tok : Nat
  deriving DecidableEq, Repr

/-- `Var` from `values.rs`: a local variable of a body. -/
structure Var where
  index : Nat
  name : Option String
  ty : ETy
  deriving DecidableEq, Repr

/-- `VarId::Vector::fresh_var` (`gast_utils.rs`): push a variable whose index
is the current length, return that index.  The `&mut self` update is modelled
by returning the new vector. -/
def fresh_var (locals : List Var) (name : Option String) (ty : ETy) :
    Nat × List Var :=
  let index := locals.length
  (index, locals ++ [{ index := index, name := name, ty := ty }])

/-! ## The ULLBC translation (`translate_functions_to_ullbc.rs`)

The hax-side (MIR) data is prefixed with `H`.  Sub-translations whose
internals are irrelevant to the claims (places, rvalues, types, constants,
generics, trait resolution — they neither touch the per-body block state nor
influence control flow beyond succeeding or failing) are kept abstract as
fields of `SubCtx`; every theorem below holds for every instantiation.
Source spans are pure metadata threaded unchanged by the code and are omitted
from the model.  A Rust `panic!` / failed `assert!` / `unwrap` of `None`
during translation is modelled as `.error ()`. -/

/-- Translation errors (charon's `Error`); the payload is irrelevant here. -/
abbrev TransError := Unit

/-- Opaque marker (`Opaque` in charon): a body that is not translated. -/
structure Opaque : Type where
  mk ::
  deriving DecidableEq, Repr

/-- Abstract token for a hax place. -/
structure HPlace where
  tok : Nat
  deriving DecidableEq, Repr

/-- Abstract token for a hax rvalue. -/
structure HRvalue where
  tok : Nat
  deriving DecidableEq, Repr

/-- Abstract token for a hax constant. -/
structure HConstant where
  tok : Nat
  deriving DecidableEq, Repr

/-- Abstract token for a hax local (`hax::Local`). -/
structure HLocal where
  tok : Nat
  deriving DecidableEq, Repr

/-- Abstract token for a hax `DefId`. -/
structure HDefId where
  tok : Nat
  deriving DecidableEq, Repr

/-- Abstract token for a hax type (`hax::Ty`). -/
structure HTy where
  tok : Nat
  deriving DecidableEq, Repr

/-- Abstract token for hax generic substitutions. -/
structure HSubsts where
  tok : Nat
  deriving DecidableEq, Repr

/-- Abstract token for hax trait refs (`Vec<hax::ImplExpr>`). -/
structure HTraitRefs where
  tok : Nat
  deriving DecidableEq, Repr

/-- Abstract token for a hax `ImplExpr` (trait information of a call). -/
structure HImplExpr where
  tok : Nat
  deriving DecidableEq, Repr

/-- Abstract token for a translated place. -/
structure Place where
  tok : Nat
  deriving DecidableEq, Repr

/-- Abstract token for a translated type. -/
structure Ty where
  tok : Nat
  deriving DecidableEq, Repr

/-- Abstract token for a translated rvalue. -/
structure Rvalue where
  tok : Nat
  deriving DecidableEq, Repr

/-- Abstract token for a translated constant expression; it carries its type
(`constant.ty`, used by `translate_operand_with_type`). -/
structure ConstantExpr where
  tok : Nat
  ty : Ty
  deriving DecidableEq, Repr

/-- Abstract token for translated generic arguments. -/
structure GenericArgs where
  tok : Nat
  deriving DecidableEq, Repr

/-- Abstract token for a translated trait ref (`TraitRef`/impl expr). -/
structure TraitRef where
  tok : Nat
  deriving DecidableEq, Repr

/-- `Name` (item paths).  Modelled from the spec: the `names` module is not in
src; a name is its list of path components, and `equals_ref_name` is
component-wise equality. -/
abbrev Name := List String

/-- Hax operands (`hax::Operand`). -/
inductive HOperand where
  | Copy (p : HPlace)
  | Move (p : HPlace)
  | Constant (c : HConstant)
  deriving DecidableEq, Repr

/-- Translated operands (`Operand` in charon's `expressions`). -/
inductive Operand where
  | Copy (p : Place)
  | Move (p : Place)
  | Const (c : ConstantExpr)
  deriving DecidableEq, Repr

/-- `Assert` (ULLBC). -/
structure Assert where
  cond : Operand
  expected : Bool
  deriving DecidableEq, Repr

/-- `FunId`: regular (by declaration id) or builtin. -/
inductive BuiltinFunId where
  | BoxNew
  | Index
  | ArrayToSliceShared
  | ArrayToSliceMut
  | ArrayRepeat
  deriving DecidableEq, Repr

inductive FunId where
  | Regular (id : Nat)
  | Builtin (b : BuiltinFunId)
  deriving DecidableEq, Repr

inductive FunIdOrTraitMethodRef where
  | Fun (f : FunId)
  | Trait (impl : TraitRef) (method : String) (id : Nat)
  deriving DecidableEq, Repr

/-- `FnPtr`: a function with its generic arguments. -/
structure FnPtr where
  func : FunIdOrTraitMethodRef
  generics : GenericArgs
  deriving DecidableEq, Repr

/-- `FnOperand`: a regular function or a function pointer read from a place. -/
inductive FnOperand where
  | Regular (f : FnPtr)
  | Move (p : Place)
  deriving DecidableEq, Repr

/-- `Call` (ULLBC). -/
structure Call where
  func : FnOperand
  args : List Operand
  dest : Place
  deriving DecidableEq, Repr

/-- ULLBC statement kinds (`RawStatement`), as produced by
`translate_statement` / `translate_terminator`. -/
inductive RawStatement where
  | Assign (p : Place) (rv : Rvalue)
  | FakeRead (p : Place)
  | SetDiscriminant (p : Place) (variant : Nat)
  | StorageDead (v : Nat)
  | Deinit (p : Place)
  | Assert (a : Assert)
  | Drop (p : Place)
  | Call (c : Call)
  deriving DecidableEq, Repr

/-- `AbortKind`.  Modelled from the spec: `ullbc_ast.rs` is not in src; §3 of
the spec lists exactly these reasons ("undefined-behavior trap" and
"explicit divergent call (panic) with an associated name"), matching the two
construction sites in `translate_terminator`/`translate_function_call`. -/
inductive AbortKind where
  | UndefinedBehavior
  | Panic (n : Name)
  deriving DecidableEq, Repr

/-- Translated switch targets (`SwitchTargets` in ULLBC). -/
inductive SwitchTargets where
  | If (then_block else_block : Nat)
  | SwitchInt (ty : IntegerTy) (targets : List (ScalarValue × Nat))
      (otherwise : Nat)
  deriving DecidableEq, Repr

/-- ULLBC terminators (`RawTerminator`). -/
inductive RawTerminator where
  | Goto (target : Nat)
  | Switch (discr : Operand) (targets : SwitchTargets)
  | Return
  | Abort (k : AbortKind)
  deriving DecidableEq, Repr

/-- A translated block (`BlockData`). -/
structure BlockData where
  statements : List RawStatement
  terminator : RawTerminator
  deriving DecidableEq, Repr

/-- Hax switch targets (`hax::SwitchTargets`); for the multi-way case each arm
value is the little-endian byte representation (`data_le_bytes`) of the
discriminant (its own type annotation is ignored by the source, hence
omitted). -/
inductive HSwitchTargets where
  | If (if_block then_block : Nat)
  | SwitchInt (targets_map : List (List Nat × Nat)) (otherwise : Nat)
  deriving DecidableEq, Repr

/-- Hax function operand of a `Call` terminator (`hax::FunOperand`). -/
inductive HFunOperand where
  | Id (def_id : HDefId)
  | Move (p : HPlace)
  deriving DecidableEq, Repr

/-- Hax statement kinds (`hax::StatementKind`), restricted to the payloads the
translation inspects. -/
inductive HStatementKind where
  | Assign (p : HPlace) (rv : HRvalue)
  | FakeRead (p : HPlace)
  | PlaceMention (p : HPlace)
  | SetDiscriminant (p : HPlace) (variant_index : Nat)
  | StorageLive (l : HLocal)
  | StorageDead (l : HLocal)
  | Deinit (p : HPlace)
  | IntrinsicAssume (op : HOperand)
  | IntrinsicCopyNonOverlapping
  | Retag
  | AscribeUserType
  | Coverage
  | ConstEvalCounter
  | Nop
  deriving DecidableEq, Repr

/-- Hax terminator kinds (`hax::TerminatorKind`), restricted to the payloads
the translation inspects (unwind information is ignored by the source). -/
inductive HTerminatorKind where
  | Goto (target : Nat)
  | SwitchInt (discr : HOperand) (targets : HSwitchTargets)
  | UnwindResume
  | UnwindTerminate
  | Return
  | Unreachable
  | Drop (place : HPlace) (target : Nat)
  | Call (f : HFunOperand) (generics : HSubsts) (args : List HOperand)
      (destination : HPlace) (target : Option Nat)
      (trait_refs : HTraitRefs) (trait_info : Option HImplExpr)
  | Assert (cond : HOperand) (expected : Bool) (target : Nat)
  | FalseEdge (real_target imaginary_target : Nat)
  | FalseUnwind (real_target : Nat)
  | InlineAsm
  | CoroutineDrop
  | TailCall
  | Yield
  deriving DecidableEq, Repr

/-- A hax basic block (`hax::BasicBlockData`): statements plus terminator.
The terminator is an `Option` because the source unwraps it
(`block.terminator.as_ref().unwrap()`). -/
structure HBlockData where
  statements : List HStatementKind
  terminator : Option HTerminatorKind
  deriving DecidableEq, Repr

/-- A hax local declaration (`LocalDecl`): optional name and type. -/
structure HLocalDecl where
  name : Option String
  ty : HTy
  deriving DecidableEq, Repr

/-- A hax MIR body (`hax::MirBody`), restricted to the fields the translation
reads: the local declarations (in MIR order) and the basic blocks, indexed by
position. -/
structure HMirBody where
  local_decls : List HLocalDecl
  basic_blocks : List HBlockData
  deriving DecidableEq, Repr

/-- The full definition of a called function (`hax::FullDef`), restricted to
the fields `recognize_builtin_fun` reads. -/
structure HFunDef where
  def_id : HDefId
  diagnostic_item : Option String
  lang_item : Option String
  deriving DecidableEq, Repr

/-- `BuiltinFun` (recognized builtins). -/
inductive BuiltinFun where
  | BoxNew
  | Panic
  deriving DecidableEq, Repr

/-- `BuiltinFun::to_ullbc_builtin_fun`.  Modelled from the spec: defined
outside src; only the `BoxNew` arm is reachable (`Panic` is filtered out
before the call site). -/
def BuiltinFun.to_ullbc_builtin_fun : BuiltinFun → BuiltinFunId
  | .BoxNew => .BoxNew
  | .Panic => .BoxNew

/-- The sub-translations used by statement/terminator translation, kept
abstract (see the section header). -/
structure SubCtx where
  translate_place_with_type : HPlace → Except TransError (Place × Ty)
  translate_rvalue : HRvalue → Except TransError Rvalue
  translate_constant_to_constant_expr :
    HConstant → Except TransError ConstantExpr
  get_local : HLocal → Option Nat
  ty_as_integer_ty : Ty → Option IntegerTy
  hax_def : HDefId → HFunDef
  hax_def_id_to_name : HDefId → Name
  register_fun_decl_id : HDefId → Nat
  translate_substs_and_trait_refs :
    HSubsts → HTraitRefs → Except TransError GenericArgs
  translate_trait_impl_expr : HImplExpr → Except TransError TraitRef
  translate_trait_item_name : HDefId → Except TransError String
  translate_ty : HTy → Except TransError ETy

/-- `translate_place`: the first component of `translate_place_with_type`. -/
def SubCtx.translate_place (ctx : SubCtx) (p : HPlace) :
    Except TransError Place := do
  let (p, _) ← ctx.translate_place_with_type p
  pure p

/-- `translate_operand_with_type`. -/
def SubCtx.translate_operand_with_type (ctx : SubCtx) :
    HOperand → Except TransError (Operand × Ty)
  | .Copy p => do
    let (p, ty) ← ctx.translate_place_with_type p
    pure (.Copy p, ty)
  | .Move p => do
    let (p, ty) ← ctx.translate_place_with_type p
    pure (.Move p, ty)
  | .Constant c => do
    let c ← ctx.translate_constant_to_constant_expr c
    pure (.Const c, c.ty)

/-- `translate_operand`: the first component of
`translate_operand_with_type`. -/
def SubCtx.translate_operand (ctx : SubCtx) (op : HOperand) :
    Except TransError Operand := do
  let (op, _) ← ctx.translate_operand_with_type op
  pure op

/-- `translate_arguments`: translate the call arguments in order (the spans
carried by `hax::Spanned` are ignored by the source). -/
def translate_arguments (ctx : SubCtx) :
    List HOperand → Except TransError (List Operand)
  | [] => .ok []
  | arg :: rest => do
    let op ← ctx.translate_operand arg
    let rest ← translate_arguments ctx rest
    pure (op :: rest)

/-- `EXPLICIT_PANIC_NAME`.  Modelled from the spec: the constant is defined
outside src; it names the explicit-panic item. -/
def EXPLICIT_PANIC_NAME : Name := ["core", "panicking", "panic_explicit"]

/-- `recognize_builtin_fun`: recognize `Box::new` and the panic entry
points. -/
def recognize_builtin_fun (ctx : SubCtx) (fd : HFunDef) : Option BuiltinFun :=
  let name := ctx.hax_def_id_to_name fd.def_id
  let panic_lang_items : List String := ["panic", "panic_fmt", "begin_panic"]
  let panic_names : List Name :=
    [["core", "panicking", "assert_failed"], EXPLICIT_PANIC_NAME]
  if fd.diagnostic_item = some "box_new" then some .BoxNew
  else if (match fd.lang_item with
           | some li => panic_lang_items.contains li
           | none => false)
          || panic_names.any (fun p => name = p) then some .Panic
  else none

/-- `SubstFunId`. -/
structure SubstFunId where
  func : FnPtr
  args : Option (List Operand)
  deriving DecidableEq, Repr

/-- `SubstFunIdOrPanic`. -/
inductive SubstFunIdOrPanic where
  | Panic (n : Name)
  | Fun (f : SubstFunId)
  deriving DecidableEq, Repr

/-- `translate_fun_decl_id_with_args`: resolve a function reference; panic
entry points short-circuit to `Panic`, builtins map to builtin ids (with the
source's `assert!(trait_info.is_none())` and the `unreachable!` on
non-`BoxNew` builtins modelled as errors), other functions become regular or
trait-method references. -/
def translate_fun_decl_id_with_args (ctx : SubCtx) (def_id : HDefId)
    (substs : HSubsts) (args : Option (List HOperand))
    (trait_refs : HTraitRefs) (trait_info : Option HImplExpr) :
    Except TransError SubstFunIdOrPanic := do
  let fun_def := ctx.hax_def def_id
  let builtin_fun := recognize_builtin_fun ctx fun_def
  if builtin_fun = some .Panic then
    pure (.Panic (ctx.hax_def_id_to_name def_id))
  else do
    let generics ← ctx.translate_substs_and_trait_refs substs trait_refs
    let args ← match args with
      | none => pure none
      | some args => do
        let args ← translate_arguments ctx args
        pure (some args)
    let func ← match builtin_fun with
      | some bf =>
        match trait_info with
        | some _ => Except.error ()
        | none =>
          let aid := bf.to_ullbc_builtin_fun
          match aid with
          | .BoxNew => pure (FunIdOrTraitMethodRef.Fun (.Builtin aid))
          | _ => Except.error ()
      | none =>
        let fun_id := ctx.register_fun_decl_id def_id
        match trait_info with
        | none => pure (FunIdOrTraitMethodRef.Fun (.Regular fun_id))
        | some ti => do
          let impl_expr ← ctx.translate_trait_impl_expr ti
          let method_name ← ctx.translate_trait_item_name def_id
          pure (FunIdOrTraitMethodRef.Trait impl_expr method_name fun_id)
    pure (.Fun { func := { func := func, generics := generics },
                 args := args })

/-- `translate_statement` (`translate_functions_to_ullbc.rs`): returns an
option because some statements are ignored. -/
def translate_statement (ctx : SubCtx) (s : HStatementKind) :
    Except TransError (Option RawStatement) :=
  match s with
  | .Assign p rv => do
    let p ← ctx.translate_place p
    let rv ← ctx.translate_rvalue rv
    pure (some (.Assign p rv))
  | .FakeRead p => do
    let p ← ctx.translate_place p
    pure (some (.FakeRead p))
  | .PlaceMention p => do
    let p ← ctx.translate_place p
    pure (some (.FakeRead p))
  | .SetDiscriminant p variant_index => do
    let p ← ctx.translate_place p
    pure (some (.SetDiscriminant p variant_index))
  | .StorageLive _ => pure none
  | .StorageDead l =>
    match ctx.get_local l with
    | some v => pure (some (.StorageDead v))
    | none => .error ()
  | .Deinit p => do
    let p ← ctx.translate_place p
    pure (some (.Deinit p))
  | .IntrinsicAssume op => do
    let op ← ctx.translate_operand op
    pure (some (.Assert { cond := op, expected := true }))
  | .IntrinsicCopyNonOverlapping => .error ()
  | .Retag => pure none
  | .AscribeUserType => pure none
  | .Coverage => pure none
  | .ConstEvalCounter => pure none
  | .Nop => pure none

/-! ### Block registration state and the per-body worklist

`BodyTransCtx`'s block-related fields (`blocks_map`, `blocks_stack`,
`blocks`) live in `translate_ctx.rs`, which is not part of src/.  They are
modelled from the spec and from their use sites: block ids are dense integers
(§3 "identified by a dense integer id"), `fresh_block_id` "also registers the
block" (comment at `translate_basic_block_id`), i.e. it records the mapping
and pushes the hax block on the work stack (a FIFO: `push_back` on
registration, `pop_front` in the worklist loop). -/

/-- per-body block translation state. -/
structure BodyState where
  blocks_map : List (Nat × Nat)
  next_block_id : Nat
  blocks_stack : List Nat
  blocks : List (Nat × BlockData)
  deriving DecidableEq, Repr

/-- The empty state a fresh `BodyTransCtx` starts from. -/
def BodyState.init : BodyState :=
  { blocks_map := [], next_block_id := 0, blocks_stack := [], blocks := [] }

/-- Association lookup in the block map (first matching key). -/
def lookup_id : List (Nat × Nat) → Nat → Option Nat
  | [], _ => none
  | (a, b) :: rest, k => if a = k then some b else lookup_id rest k

/-- `fresh_block_id` (modelled from the spec, see above): hand out the next
dense id, record the mapping, push the hax block on the work stack. -/
def fresh_block_id (st : BodyState) (hid : Nat) : Nat × BodyState :=
  (st.next_block_id,
   { st with
     blocks_map := st.blocks_map ++ [(hid, st.next_block_id)],
     next_block_id := st.next_block_id + 1,
     blocks_stack := st.blocks_stack ++ [hid] })

/-- `translate_basic_block_id`: translate a hax block id, registering it if it
has not been seen yet. -/
def translate_basic_block_id (st : BodyState) (hid : Nat) : Nat × BodyState :=
  match lookup_id st.blocks_map hid with
  | none => fresh_block_id st hid
  | some id => (id, st)

/-- `push_block` (modelled from the spec: `translate_ctx.rs` not in src):
record a translated block under its id. -/
def push_block (st : BodyState) (id : Nat) (blk : BlockData) : BodyState :=
  { st with blocks := st.blocks ++ [(id, blk)] }

/-- Little-endian byte decoding (least significant byte first). -/
def le_bytes_to_nat : List Nat → Nat
  | [] => 0
  | b :: rest => b + 256 * le_bytes_to_nat rest

/-- Signedness of an integer type. -/
def IntegerTy.is_signed : IntegerTy → Bool
  | .Isize | .I8 | .I16 | .I32 | .I64 | .I128 => true
  | _ => false

/-- `ScalarValue::from_le_bytes`.  Modelled from the spec: defined outside
src; decodes the little-endian representation at the given type (two's
complement for signed types). -/
def ScalarValue.from_le_bytes (ty : IntegerTy) (bs : List Nat) : ScalarValue :=
  if ty.is_signed then
    ScalarValue.from_unchecked_int ty
      (ScalarValue.wrap_signed 128 (le_bytes_to_nat bs))
  else ScalarValue.from_unchecked_uint ty (le_bytes_to_nat bs)

/-- The switch-arm translation inside `translate_switch_targets` (the
`targets_map.iter().map(...).try_collect()` over `(value, target)` pairs):
decode each value at the switch type and translate each target id in source
order. -/
def translate_switch_arms (int_ty : IntegerTy) :
    List (List Nat × Nat) → BodyState → List (ScalarValue × Nat) × BodyState
  | [], st => ([], st)
  | (v, tgt) :: rest, st =>
    let sv := ScalarValue.from_le_bytes int_ty v
    let (tgt, st) := translate_basic_block_id st tgt
    let (rest, st) := translate_switch_arms int_ty rest st
    ((sv, tgt) :: rest, st)

/-- `translate_switch_targets`: boolean two-way splits keep their two targets;
multi-way splits translate the arms in order, then the mandatory `otherwise`
(the `as_literal().unwrap().as_integer().unwrap()` on the switch type is
modelled by `ty_as_integer_ty`, `none` being the panic). -/
def translate_switch_targets (ctx : SubCtx) (switch_ty : Ty)
    (targets : HSwitchTargets) (st : BodyState) :
    Except TransError (SwitchTargets × BodyState) :=
  match targets with
  | .If if_block then_block =>
    let (if_block, st) := translate_basic_block_id st if_block
    let (then_block, st) := translate_basic_block_id st then_block
    .ok (.If if_block then_block, st)
  | .SwitchInt targets_map otherwise =>
    match ctx.ty_as_integer_ty switch_ty with
    | none => .error ()
    | some int_ty =>
      let (targets_map, st) := translate_switch_arms int_ty targets_map st
      let (otherwise, st) := translate_basic_block_id st otherwise
      .ok (.SwitchInt int_ty targets_map otherwise, st)

/-- The common tail of `translate_function_call` (after the function operand
and arguments are resolved): push the `Call` statement, then `Goto` the
return target, or `Abort(UndefinedBehavior)` when there is none. -/
def finish_call (statements : List RawStatement) (fn_operand : FnOperand)
    (args : List Operand) (lval : Place) (next_block : Option Nat)
    (st : BodyState) :
    Except TransError (List RawStatement × RawTerminator × BodyState) :=
  let call : Call := { func := fn_operand, args := args, dest := lval }
  let statements := statements ++ [RawStatement.Call call]
  .ok (statements,
       match next_block with
       | some target => RawTerminator.Goto target
       | none => RawTerminator.Abort .UndefinedBehavior,
       st)

/-- `translate_function_call`: desugars a MIR `Call` terminator into a `Call`
statement followed by a `Goto` (or an `Abort`).  Calls to recognized panic
functions become `Abort(Panic(name))` (with the source's
`assert!(target.is_none())` modelled as an error when it fails). -/
def translate_function_call (ctx : SubCtx) (statements : List RawStatement)
    (f : HFunOperand) (generics : HSubsts) (args : List HOperand)
    (destination : HPlace) (target : Option Nat) (trait_refs : HTraitRefs)
    (trait_info : Option HImplExpr) (st : BodyState) :
    Except TransError (List RawStatement × RawTerminator × BodyState) := do
  let lval ← ctx.translate_place destination
  let (next_block, st) := match target with
    | some t =>
      let (t, st) := translate_basic_block_id st t
      (some t, st)
    | none => (none, st)
  match f with
  | .Id def_id => do
    let fid ← translate_fun_decl_id_with_args ctx def_id generics
      (some args) trait_refs trait_info
    match fid with
    | .Panic name =>
      match target with
      | some _ => Except.error ()
      | none => .ok (statements, RawTerminator.Abort (.Panic name), st)
    | .Fun fid =>
      match fid.args with
      | none => Except.error ()
      | some args2 =>
        finish_call statements (FnOperand.Regular fid.func) args2 lval
          next_block st
  | .Move p => do
    let p ← ctx.translate_place p
    let args ← translate_arguments ctx args
    finish_call statements (FnOperand.Move p) args lval next_block st

/-- `translate_terminator`: some MIR terminators (`Drop`, `Call`, `Assert`)
are desugared into a statement pushed at the end of the block plus a `Goto`;
`Unreachable` becomes `Abort(UndefinedBehavior)`; false edges and
`FalseUnwind` become `Goto`s; unsupported terminators are errors. -/
def translate_terminator (ctx : SubCtx) (term : HTerminatorKind)
    (statements : List RawStatement) (st : BodyState) :
    Except TransError (List RawStatement × RawTerminator × BodyState) :=
  match term with
  | .Goto target =>
    let (target, st) := translate_basic_block_id st target
    .ok (statements, .Goto target, st)
  | .SwitchInt discr targets => do
    let (discr, discr_ty) ← ctx.translate_operand_with_type discr
    let (targets, st) ← translate_switch_targets ctx discr_ty targets st
    pure (statements, .Switch discr targets, st)
  | .UnwindResume => .error ()
  | .UnwindTerminate => .error ()
  | .Return => .ok (statements, .Return, st)
  | .Unreachable => .ok (statements, .Abort .UndefinedBehavior, st)
  | .Drop place target => do
    let place ← ctx.translate_place place
    let statements := statements ++ [RawStatement.Drop place]
    let (target, st) := translate_basic_block_id st target
    pure (statements, .Goto target, st)
  | .Call f generics args destination target trait_refs trait_info =>
    translate_function_call ctx statements f generics args destination
      target trait_refs trait_info st
  | .Assert cond expected target => do
    let cond ← ctx.translate_operand cond
    let statements :=
      statements ++ [RawStatement.Assert { cond := cond, expected := expected }]
    let (target, st) := translate_basic_block_id st target
    pure (statements, .Goto target, st)
  | .FalseEdge real_target _ =>
    let (target, st) := translate_basic_block_id st real_target
    .ok (statements, .Goto target, st)
  | .FalseUnwind real_target =>
    let (target, st) := translate_basic_block_id st real_target
    .ok (statements, .Goto target, st)
  | .InlineAsm => .error ()
  | .CoroutineDrop => .error ()
  | .TailCall => .error ()
  | .Yield => .error ()

/-- The statement loop of `translate_basic_block`: translate each statement,
keeping the `some` results in order. -/
def translate_statements (ctx : SubCtx) :
    List HStatementKind → Except TransError (List RawStatement)
  | [] => .ok []
  | s :: rest => do
    let opt ← translate_statement ctx s
    let rest ← translate_statements ctx rest
    pure (match opt with
          | some s => s :: rest
          | none => rest)

/-- `translate_basic_block`: translate one hax block and record it under its
id (`body.basic_blocks.get(block_id).unwrap()` and the terminator unwrap are
modelled as errors). -/
def translate_basic_block (ctx : SubCtx) (body : HMirBody) (block_id : Nat)
    (st : BodyState) : Except TransError BodyState :=
  let (nid, st) := translate_basic_block_id st block_id
  match body.basic_blocks.get? block_id with
  | none => .error ()
  | some block => do
    let statements ← translate_statements ctx block.statements
    match block.terminator with
    | none => .error ()
    | some terminator => do
      let (statements, terminator, st) ←
        translate_terminator ctx terminator statements st
      pure (push_block st nid
        { statements := statements, terminator := terminator })

/-- The hax block ids on which `translate_terminator` calls
`translate_basic_block_id`, in call order: the control-flow successors of the
terminator. -/
def HTerminatorKind.targets : HTerminatorKind → List Nat
  | .Goto target => [target]
  | .SwitchInt _ (.If if_block then_block) => [if_block, then_block]
  | .SwitchInt _ (.SwitchInt targets_map otherwise) =>
    targets_map.map Prod.snd ++ [otherwise]
  | .UnwindResume => []
  | .UnwindTerminate => []
  | .Return => []
  | .Unreachable => []
  | .Drop _ target => [target]
  | .Call _ _ _ _ target _ _ => target.toList
  | .Assert _ _ target => [target]
  | .FalseEdge real_target _ => [real_target]
  | .FalseUnwind real_target => [real_target]
  | .InlineAsm => []
  | .CoroutineDrop => []
  | .TailCall => []
  | .Yield => []

/-- Successors of a hax block in the source graph. -/
def HMirBody.succs (body : HMirBody) (b : Nat) : List Nat :=
  match body.basic_blocks.get? b with
  | some blk =>
    match blk.terminator with
    | some t => t.targets
    | none => []
  | none => []

/-- `rustc_middle::mir::START_BLOCK`: MIR entry block is block 0. -/
def START_BLOCK : Nat := 0

/-- `START_BLOCK_ID`: the ULLBC entry block id. -/
def START_BLOCK_ID : Nat := 0

/-- Reachability from the entry block along terminator targets. -/
inductive Reach (body : HMirBody) : Nat → Prop
  | start : Reach body START_BLOCK
  | step {b t : Nat} : Reach body b → t ∈ body.succs b → Reach body t

/-- The `while let Some(block_id) = self.blocks_stack.pop_front()` worklist
loop of `translate_transparent_expression_body`.  The source loop terminates
because every iteration pops one stack entry and each block is registered
(hence stacked) at most once; the recursion is made structural on a fuel
parameter, exhaustion being an error (never reached when the fuel bound below
is used). -/
def translate_blocks_loop (ctx : SubCtx) (body : HMirBody) :
    Nat → BodyState → Except TransError BodyState
  | 0, _ => .error ()
  | fuel + 1, st =>
    match st.blocks_stack with
    | [] => .ok st
    | block_id :: rest => do
      let st ← translate_basic_block ctx body block_id
        { st with blocks_stack := rest }
      translate_blocks_loop ctx body fuel st

/-- A fuel bound sufficient for the worklist loop: one iteration per possible
registration (the entry plus every target mention), plus one. -/
def HMirBody.loop_fuel (body : HMirBody) : Nat :=
  2 + (body.basic_blocks.map (fun b =>
        match b.terminator with
        | some t => t.targets.length
        | none => 0)).sum

/-- `translate_transparent_expression_body`: register the start block
(asserting it gets `START_BLOCK_ID`), then drain the worklist. -/
def translate_transparent_expression_body (ctx : SubCtx) (body : HMirBody) :
    Except TransError BodyState :=
  let (id, st) := translate_basic_block_id BodyState.init START_BLOCK
  if id = START_BLOCK_ID then translate_blocks_loop ctx body body.loop_fuel st
  else .error ()

/-- The block-vector rebuild of `translate_body_aux`
(`for (id, block) in mem::take(&mut self.blocks) { ... assert!(id == new_id) }`):
push each translated block in order, checking that its id equals its position
(the failed `assert!` is an error). -/
def assemble_blocks_aux :
    List (Nat × BlockData) → List BlockData → Except TransError (List BlockData)
  | [], acc => .ok acc
  | (id, blk) :: rest, acc =>
    if id = acc.length then assemble_blocks_aux rest (acc ++ [blk])
    else .error ()

def assemble_blocks (blocks : List (Nat × BlockData)) :
    Except TransError (List BlockData) :=
  assemble_blocks_aux blocks []

/-! ### Body assembly, functions and globals -/

/-- `translate_body_locals`: translate the MIR local declarations in order;
`push_var(index, ty, name)` (from `translate_ctx.rs`, modelled from the spec)
records a `Var` with exactly the enumeration index. -/
def translate_body_locals_aux (ctx : SubCtx) (i : Nat) :
    List HLocalDecl → Except TransError (List Var)
  | [] => .ok []
  | d :: rest => do
    let ty ← ctx.translate_ty d.ty
    let rest ← translate_body_locals_aux ctx (i + 1) rest
    pure ({ index := i, name := d.name, ty := ty } :: rest)

def translate_body_locals (ctx : SubCtx) (body : HMirBody) :
    Except TransError (List Var) :=
  translate_body_locals_aux ctx 0 body.local_decls

/-- `ExprBody` (`GExprBody`), restricted to the fields the claims are about
(span and comments are metadata). -/
structure ExprBody where
  arg_count : Nat
  locals : List Var
  body : List BlockData
  deriving DecidableEq, Repr

/-- `translate_body_aux`: opaque bodies (by opacity policy or missing MIR)
are `Err(Opaque)`; otherwise translate the locals, run the worklist, and
assemble the dense block vector. -/
def translate_body_aux (ctx : SubCtx) (opaque_body : Bool)
    (opt_mir : Option HMirBody) (arg_count : Nat) :
    Except TransError (Except Opaque ExprBody) :=
  if opaque_body then .ok (.error ⟨⟩)
  else match opt_mir with
  | none => .ok (.error ⟨⟩)
  | some body => do
    let locals ← translate_body_locals ctx body
    let st ← translate_transparent_expression_body ctx body
    let blocks ← assemble_blocks st.blocks
    pure (.ok { arg_count := arg_count, locals := locals, body := blocks })

/-- `translate_body`: `translate_body_aux` wrapped in `catch_unwind`; panics
are already modelled as `TransError`s, so the wrapper is the identity (a
caught panic maps to an error through `error_or_panic`, exactly the error
case of the model). -/
def translate_body (ctx : SubCtx) (opaque_body : Bool) (opt_mir : Option HMirBody)
    (arg_count : Nat) : Except TransError (Except Opaque ExprBody) :=
  translate_body_aux ctx opaque_body opt_mir arg_count

/-- `ItemKind` (`get_item_kind`), restricted to what `translate_function`
inspects: a trait-declaration method carries whether it has a default body. -/
inductive ItemKind where
  | Regular
  | TraitImplItem
  | TraitDeclItem (has_default : Bool)
  deriving DecidableEq, Repr

/-- `FunSig`, restricted to the field `translate_function` reads for the body
translation: the input types. -/
structure FunSig where
  inputs : List ETy
  deriving DecidableEq, Repr

/-- `FunDecl`, restricted to the claim-relevant fields. -/
structure FunDecl where
  kind : ItemKind
  signature : FunSig
  body : Except Opaque Nat
  deriving Repr

/-- `GlobalDecl`, restricted to the claim-relevant fields. -/
structure GlobalDecl where
  kind : ItemKind
  body : Except Opaque Nat
  deriving Repr

/-- The shared `bodies` vector (`t_ctx.translated.bodies`): `push` appends a
filled slot and returns its index; `reserve_slot` (modelled from the spec:
"We reserve a slot and leave it empty") appends an empty slot and returns its
index. -/
def bodies_push (bodies : List (Option ExprBody)) (b : ExprBody) :
    Nat × List (Option ExprBody) :=
  (bodies.length, bodies ++ [some b])

def bodies_reserve_slot (bodies : List (Option ExprBody)) :
    Nat × List (Option ExprBody) :=
  (bodies.length, bodies ++ [none])

/-- `translate_function`: item kind and signature are translated first (their
outcomes are inputs here); the body is translated with
`signature.inputs.len()` as argument count; a body translation *error* still
yields `Ok` — the body id points to a reserved empty slot.  Trait-declaration
methods without a default body get no body at all. -/
def translate_function (kind : Except TransError ItemKind)
    (signature : Except TransError FunSig)
    (body_res : Nat → Except TransError (Except Opaque ExprBody))
    (bodies : List (Option ExprBody)) :
    Except TransError (FunDecl × List (Option ExprBody)) := do
  let kind ← kind
  let is_trait_method_decl_without_default :=
    match kind with
    | .Regular | .TraitImplItem => false
    | .TraitDeclItem has_default => !has_default
  let signature ← signature
  let (body_id, bodies) :=
    if !is_trait_method_decl_without_default then
      match body_res signature.inputs.length with
      | .ok (.ok body) =>
        let (id, bodies) := bodies_push bodies body
        (Except.ok id, bodies)
      | .ok (.error _) => (Except.error Opaque.mk, bodies)
      | .error _ =>
        let (id, bodies) := bodies_reserve_slot bodies
        (Except.ok id, bodies)
    else (Except.error Opaque.mk, bodies)
  pure ({ kind := kind, signature := signature, body := body_id }, bodies)

/-- `translate_global`: like `translate_function` but the body is translated
with argument count 0 (globals take no arguments). -/
def translate_global (kind : Except TransError ItemKind)
    (body_res : Nat → Except TransError (Except Opaque ExprBody))
    (bodies : List (Option ExprBody)) :
    Except TransError (GlobalDecl × List (Option ExprBody)) := do
  let kind ← kind
  let (body_id, bodies) :=
    match body_res 0 with
    | .ok (.ok body) =>
      let (id, bodies) := bodies_push bodies body
      (Except.ok id, bodies)
    | .ok (.error _) => (Except.error Opaque.mk, bodies)
    | .error _ =>
      let (id, bodies) := bodies_reserve_slot bodies
      (Except.ok id, bodies)
  pure ({ kind := kind, body := body_id }, bodies)

/-- The per-local comment of `GExprBody::fmt_with_ctx` (`gast_utils.rs`):
index 0 is the return value, indices `1..=arg_count` the arguments. -/
def local_comment (arg_count : Nat) (v : Var) : String :=
  if v.index = 0 then "// return"
  else if v.index ≤ arg_count then "// arg #" ++ toString v.index
  else match v.name with
       | some _ => "// local"
       | none => "// anonymous local"

/-- The block map only grows during translation: an established id mapping
persists. -/
def MapExtends (st st2 : BodyState) : Prop :=
  ∀ k v, lookup_id st.blocks_map k = some v →
    lookup_id st2.blocks_map k = some v

/-- `HSwitchTargets`: all target block ids, arms first then the mandatory
otherwise, matching the order of `translate_basic_block_id` calls in
`translate_switch_targets`. -/
def HSwitchTargets.targetsList : HSwitchTargets → List Nat
  | .If if_block then_block => [if_block, then_block]
  | .SwitchInt targets_map otherwise => targets_map.map Prod.snd ++ [otherwise]

/-- The loop invariant of the worklist translation, at translation cursor
`j`: block-map values are the dense ids `0..next_block_id` in registration
order, hax keys are distinct, the translated blocks carry ids `0..len` in
push order, the work stack is exactly the registered-but-untranslated keys in
registration order, the entry was registered first with id 0, and every
registered hax block is reachable from the entry. -/
def StInv (body : HMirBody) (st : BodyState) (j : Nat) : Prop :=
  st.blocks_map.map Prod.snd = List.range st.next_block_id
  ∧ (st.blocks_map.map Prod.fst).Nodup
  ∧ st.blocks.map Prod.fst = List.range st.blocks.length
  ∧ st.blocks_stack = (st.blocks_map.map Prod.fst).drop j
  ∧ st.blocks.length ≤ j
  ∧ j ≤ st.blocks_map.length
  ∧ st.blocks_map.head? = some (START_BLOCK, START_BLOCK_ID)
  ∧ (∀ p ∈ st.blocks_map, Reach body p.1)

/-! ### The control-flow structurer (spec-modelled)

Modelled from the spec: the ULLBC→LLBC structuring engine
(`ullbc_to_llbc.rs`, invoked by the driver at
`ullbc_to_llbc::translate_functions`) is not part of src/.  The model follows
§3/§4.3 of the spec: a recursive descent over the graph carrying a stack of
open blocks and an optional expected continuation, emitting `Sequence`
prefixes of leaf statements, `If`/`Switch` nodes with arms structured in
source order, `Continue` markers for back edges, and terminal
`Return`/`Abort` leaves.  Natural-loop wrapping and the exit resolver's join
computation are elided (back edges become `Continue` markers directly); the
aspect under verification — a pure, order-preserving traversal — follows the
spec's determinism requirement (§4.2, §8). -/

/-- Structured statement trees (spec §3). -/
inductive StructStmt where
  | Leaf (s : RawStatement)
  | Sequence (first second : StructStmt)
  | IfThenElse (cond : Operand) (then_tree else_tree : StructStmt)
  | SwitchNode (discr : Operand) (arms : List (ScalarValue × StructStmt))
      (default : StructStmt)
  | LoopNode (body : StructStmt)
  | Break (level : Nat)
  | Continue (level : Nat)
  | ReturnNode
  | AbortNode (k : AbortKind)
  | Nil
  deriving Repr

mutual

def structure_block (g : List BlockData) :
    Nat → List Nat → Option Nat → Nat → Except TransError StructStmt
  | 0, _, _, _ => .error ()
  | fuel + 1, loop_stack, cont, b =>
    if b ∈ loop_stack then .ok (.Continue (loop_stack.indexOf b))
    else
      match g.get? b with
      | none => .error ()
      | some blk =>
        match structure_terminator g fuel (b :: loop_stack) cont
            blk.terminator with
        | .error e => .error e
        | .ok tail =>
          .ok (blk.statements.foldr
            (fun s acc => StructStmt.Sequence (.Leaf s) acc) tail)

def structure_terminator (g : List BlockData) :
    Nat → List Nat → Option Nat → RawTerminator → Except TransError StructStmt
  | 0, _, _, _ => .error ()
  | fuel + 1, loop_stack, cont, term =>
    match term with
    | .Return => .ok .ReturnNode
    | .Abort k => .ok (.AbortNode k)
    | .Goto t =>
      if cont = some t then .ok .Nil
      else structure_block g fuel loop_stack cont t
    | .Switch discr (.If a b) =>
      match structure_block g fuel loop_stack cont a,
            structure_block g fuel loop_stack cont b with
      | .ok ta, .ok tb => .ok (.IfThenElse discr ta tb)
      | .error e, _ => .error e
      | _, .error e => .error e
    | .Switch discr (.SwitchInt _ arms otherwise) =>
      match structure_arms g fuel loop_stack cont arms,
            structure_block g fuel loop_stack cont otherwise with
      | .ok arms2, .ok toth => .ok (.SwitchNode discr arms2 toth)
      | .error e, _ => .error e
      | _, .error e => .error e

def structure_arms (g : List BlockData) :
    Nat → List Nat → Option Nat → List (ScalarValue × Nat) →
    Except TransError (List (ScalarValue × StructStmt))
  | 0, _, _, _ => .error ()
  | _ + 1, _, _, [] => .ok []
  | fuel + 1, loop_stack, cont, (v, t) :: rest =>
    match structure_block g fuel loop_stack cont t,
          structure_arms g fuel loop_stack cont rest with
    | .ok tt, .ok rest2 => .ok ((v, tt) :: rest2)
    | .error e, _ => .error e
    | _, .error e => .error e

end

/-- A fuel bound for the structurer, large enough for the examples below. -/
def structure_fuel (g : List BlockData) : Nat :=
  2 * (g.length + 1) *
    ((g.map (fun b =>
      match b.terminator with
      | .Switch _ (.SwitchInt _ arms _) => arms.length + 2
      | _ => 2)).sum + 2)

/-- Structure a whole procedure graph starting from its entry block. -/
def structure_graph (g : List BlockData) : Except TransError StructStmt :=
  structure_block g (structure_fuel g) [] none 0

/-- A concrete instantiation of the abstract sub-translations, used to
evaluate the translation on explicit inputs (all sub-translations succeed;
def-id token 7 names the explicit-panic entry point). -/
def trivSubCtx : SubCtx where
  translate_place_with_type := fun p => .ok (⟨p.tok⟩, ⟨p.tok⟩)
  translate_rvalue := fun rv => .ok ⟨rv.tok⟩
  translate_constant_to_constant_expr := fun c => .ok ⟨c.tok, ⟨0⟩⟩
  get_local := fun l => some l.tok
  ty_as_integer_ty := fun _ => some .U32
  hax_def := fun d => ⟨d, none, none⟩
  hax_def_id_to_name := fun d =>
    if d.tok = 7 then EXPLICIT_PANIC_NAME else ["f"]
  register_fun_decl_id := fun _ => 0
  translate_substs_and_trait_refs := fun _ _ => .ok ⟨0⟩
  translate_trait_impl_expr := fun _ => .ok ⟨0⟩
  translate_trait_item_name := fun _ => .ok "m"
  translate_ty := fun t => .ok ⟨t.tok⟩

end Charon

/-! # Theorems -/

namespace Charon

theorem except_ok_bind {α β : Type} (a : α) (f : α → Except TransError β) :
    (Except.ok a >>= f) = f a := rfl

theorem except_error_bind {α β : Type} (f : α → Except TransError β) :
    ((Except.error () : Except TransError α) >>= f) = .error () := rfl

theorem except_pure {α : Type} (a : α) :
    (pure a : Except TransError α) = .ok a := rfl

/-- **C9.** For every integer type `ty`, `from_uint ty v` succeeds iff
`uint_is_in_bounds ty v` (and in particular never succeeds on a signed type),
and on success the result satisfies `get_integer_ty = ty` and
`as_uint = ok v`; symmetrically for `from_int`/`int_is_in_bounds`/`as_int` on
signed values. -/
theorem scalar_from_uint_from_int_roundtrip (ty : IntegerTy) (v : Nat) (w : Int) :
    ((ScalarValue.from_uint ty v).isOk = true ↔ ScalarValue.uint_is_in_bounds ty v = true)
    ∧ (∀ s, ScalarValue.from_uint ty v = .ok s →
        s.get_integer_ty = ty ∧ s.as_uint = .ok v)
    ∧ ((ScalarValue.from_int ty w).isOk = true ↔ ScalarValue.int_is_in_bounds ty w = true)
    ∧ (∀ s, ScalarValue.from_int ty w = .ok s →
        s.get_integer_ty = ty ∧ s.as_int = .ok w) := by
  refine ⟨?_, ?_, ?_, ?_⟩
  · simp only [ScalarValue.from_uint]
    by_cases h : ScalarValue.uint_is_in_bounds ty v = true <;>
      simp [h, Except.isOk, Except.toBool]
  · intro s hs
    simp only [ScalarValue.from_uint] at hs
    by_cases h : ScalarValue.uint_is_in_bounds ty v = true
    · simp only [h, Bool.not_true, Bool.false_eq_true, if_false, Except.ok.injEq] at hs
      subst hs
      cases ty <;> simp_all [ScalarValue.uint_is_in_bounds,
        ScalarValue.from_unchecked_uint, ScalarValue.get_integer_ty,
        ScalarValue.as_uint] <;> omega
    · simp [h] at hs
  · simp only [ScalarValue.from_int]
    by_cases h : ScalarValue.int_is_in_bounds ty w = true <;>
      simp [h, Except.isOk, Except.toBool]
  · intro s hs
    simp only [ScalarValue.from_int] at hs
    by_cases h : ScalarValue.int_is_in_bounds ty w = true
    · simp only [h, Bool.not_true, Bool.false_eq_true, if_false, Except.ok.injEq] at hs
      subst hs
      cases ty <;>
        simp_all [ScalarValue.int_is_in_bounds, ScalarValue.from_unchecked_int,
          ScalarValue.get_integer_ty, ScalarValue.as_int,
          ScalarValue.wrap_signed] <;> omega
    · simp [h] at hs

/-- Witness for C9 at `ty = U8, v = 5, w = -3`. -/
theorem scalar_from_uint_from_int_roundtrip_witness :
    (ScalarValue.from_uint .U8 5).isOk = true
    ∧ (ScalarValue.U8 5).get_integer_ty = .U8
    ∧ (ScalarValue.U8 5).as_uint = .ok 5
    ∧ (ScalarValue.from_int .I8 (-3)).isOk = true := by
  have h := scalar_from_uint_from_int_roundtrip .U8 5 (-3)
  have h8 := scalar_from_uint_from_int_roundtrip .I8 5 (-3)
  refine ⟨h.1.mpr (by decide), ?_, ?_, h8.2.2.1.mpr (by decide)⟩
  · exact (h.2.1 (ScalarValue.U8 5) (by rfl)).1
  · exact (h.2.1 (ScalarValue.U8 5) (by rfl)).2

/-- **C10.** `fresh_var` keeps the locals table densely indexed: if every
variable's index equals its position, the pushed variable gets index equal to
the previous length, that index is returned, and density is preserved. -/
theorem fresh_var_dense (locals : List Var) (name : Option String) (ty : ETy)
    (h : ∀ i (hi : i < locals.length), (locals.get ⟨i, hi⟩).index = i) :
    (fresh_var locals name ty).1 = locals.length
    ∧ ∀ i (hi : i < (fresh_var locals name ty).2.length),
        ((fresh_var locals name ty).2.get ⟨i, hi⟩).index = i := by
  refine ⟨rfl, ?_⟩
  intro i hi
  simp only [fresh_var, List.length_append, List.length_cons,
    List.length_nil] at hi
  simp only [fresh_var, List.get_eq_getElem]
  rcases Nat.lt_or_ge i locals.length with hlt | hge
  · rw [List.getElem_append_left hlt]
    exact h i hlt
  · have : i = locals.length := by omega
    subst this
    rw [List.getElem_append_right (Nat.le_refl _)]
    simp

/-- **C1 counterexample.** `translate_statement` drops a `StorageLive`
marker: on a `StorageLive` statement it returns `Ok(None)` — the statement
does not pass through into the produced block's statement sequence,
contradicting the claim that storage-liveness markers are preserved as
sequence elements. -/
theorem translate_statement_drops_storage_live :
    translate_statement trivSubCtx (.StorageLive ⟨0⟩) = .ok none := rfl

/-- **C1 (amended).** `translate_statement` passes the effectful statement
kinds through unchanged (`Assign`, `FakeRead`, `SetDiscriminant`,
`StorageDead`, `Deinit`), re-expresses `PlaceMention` as `FakeRead` and the
`Assume` intrinsic as `Assert`, drops `StorageLive`, `Retag`,
`AscribeUserType`, `Coverage`, `ConstEvalCounter` and `Nop` (returning
`Ok(None)`), and rejects `CopyNonOverlapping`. -/
theorem translate_statement_kind_cases (ctx : SubCtx) :
    (∀ p rv q r, ctx.translate_place p = .ok q → ctx.translate_rvalue rv = .ok r →
      translate_statement ctx (.Assign p rv) = .ok (some (.Assign q r)))
    ∧ (∀ p q, ctx.translate_place p = .ok q →
      translate_statement ctx (.FakeRead p) = .ok (some (.FakeRead q)))
    ∧ (∀ p q, ctx.translate_place p = .ok q →
      translate_statement ctx (.PlaceMention p) = .ok (some (.FakeRead q)))
    ∧ (∀ p vi q, ctx.translate_place p = .ok q →
      translate_statement ctx (.SetDiscriminant p vi) =
        .ok (some (.SetDiscriminant q vi)))
    ∧ (∀ l, translate_statement ctx (.StorageLive l) = .ok none)
    ∧ (∀ l v, ctx.get_local l = some v →
      translate_statement ctx (.StorageDead l) = .ok (some (.StorageDead v)))
    ∧ (∀ p q, ctx.translate_place p = .ok q →
      translate_statement ctx (.Deinit p) = .ok (some (.Deinit q)))
    ∧ (∀ op q, ctx.translate_operand op = .ok q →
      translate_statement ctx (.IntrinsicAssume op) =
        .ok (some (.Assert { cond := q, expected := true })))
    ∧ translate_statement ctx .IntrinsicCopyNonOverlapping = .error ()
    ∧ translate_statement ctx .Retag = .ok none
    ∧ translate_statement ctx .AscribeUserType = .ok none
    ∧ translate_statement ctx .Coverage = .ok none
    ∧ translate_statement ctx .ConstEvalCounter = .ok none
    ∧ translate_statement ctx .Nop = .ok none := by
  refine ⟨?_, ?_, ?_, ?_, ?_, ?_, ?_, ?_, rfl, rfl, rfl, rfl, rfl, rfl⟩
  · intro p rv q r hp hr
    simp [translate_statement, hp, hr, except_ok_bind, except_pure]
  · intro p q hp
    simp [translate_statement, hp, except_ok_bind, except_pure]
  · intro p q hp
    simp [translate_statement, hp, except_ok_bind, except_pure]
  · intro p vi q hp
    simp [translate_statement, hp, except_ok_bind, except_pure]
  · intro l
    rfl
  · intro l v hl
    simp [translate_statement, hl, except_ok_bind, except_pure]
  · intro p q hp
    simp [translate_statement, hp, except_ok_bind, except_pure]
  · intro op q hop
    simp [translate_statement, hop, except_ok_bind, except_pure]

/-- Witness for the amended C1 at concrete inputs: an `Assign` passes
through, a `StorageDead` passes through. -/
theorem translate_statement_kind_cases_witness :
    translate_statement trivSubCtx (.Assign ⟨1⟩ ⟨2⟩) =
      .ok (some (.Assign ⟨1⟩ ⟨2⟩))
    ∧ translate_statement trivSubCtx (.StorageDead ⟨3⟩) =
      .ok (some (.StorageDead 3)) := by
  have h := translate_statement_kind_cases trivSubCtx
  exact ⟨h.1 ⟨1⟩ ⟨2⟩ ⟨1⟩ ⟨2⟩ rfl rfl, h.2.2.2.2.2.1 ⟨3⟩ 3 rfl⟩

/-- **C3.** Abort reasons: a MIR `Unreachable` terminator translates to
`Abort(UndefinedBehavior)`; a call to a recognized panic function with no
return target translates to `Abort(Panic(name))` with the callee's name; and
every `Abort` produced by `translate_terminator` carries either the
undefined-behavior reason or a panic reason with an associated name. -/
theorem translate_terminator_abort_reasons (ctx : SubCtx) (st : BodyState)
    (stmts : List RawStatement) :
    translate_terminator ctx .Unreachable stmts st =
      .ok (stmts, .Abort .UndefinedBehavior, st)
    ∧ (∀ did generics args dest trait_refs trait_info lval,
        recognize_builtin_fun ctx (ctx.hax_def did) = some .Panic →
        ctx.translate_place dest = .ok lval →
        translate_terminator ctx
            (.Call (.Id did) generics args dest none trait_refs trait_info)
            stmts st =
          .ok (stmts, .Abort (.Panic (ctx.hax_def_id_to_name did)), st))
    ∧ (∀ term stmts2 t2 st2 r,
        translate_terminator ctx term stmts st = .ok (stmts2, t2, st2) →
        t2 = .Abort r → r = .UndefinedBehavior ∨ ∃ n, r = .Panic n) := by
  refine ⟨rfl, ?_, ?_⟩
  · intro did generics args dest trait_refs trait_info lval hpanic hlval
    simp [translate_terminator, translate_function_call,
      translate_fun_decl_id_with_args, hpanic, hlval, except_ok_bind,
      except_pure]
  · intro term stmts2 t2 st2 r _ habort
    cases r with
    | UndefinedBehavior => exact Or.inl rfl
    | Panic n => exact Or.inr ⟨n, rfl⟩

/-- Witness for C3: the explicit-panic entry point (def-id token 7 under
`trivSubCtx`) with no target yields `Abort(Panic(explicit panic name))`, and
`Unreachable` yields `Abort(UndefinedBehavior)`. -/
theorem translate_terminator_abort_reasons_witness :
    translate_terminator trivSubCtx
        (.Call (.Id ⟨7⟩) ⟨0⟩ [] ⟨0⟩ none ⟨0⟩ none) [] BodyState.init =
      .ok ([], .Abort (.Panic EXPLICIT_PANIC_NAME), BodyState.init)
    ∧ translate_terminator trivSubCtx .Unreachable [] BodyState.init =
      .ok ([], .Abort .UndefinedBehavior, BodyState.init) := by
  have h := translate_terminator_abort_reasons trivSubCtx BodyState.init []
  refine ⟨?_, h.1⟩
  have h2 := h.2.1 ⟨7⟩ ⟨0⟩ [] ⟨0⟩ ⟨0⟩ none ⟨0⟩ (by rfl) (by rfl)
  simpa [trivSubCtx] using h2

theorem lookup_id_append_of_some {m : List (Nat × Nat)} {k v : Nat}
    (l : List (Nat × Nat)) (h : lookup_id m k = some v) :
    lookup_id (m ++ l) k = some v := by
  induction m with
  | nil => simp [lookup_id] at h
  | cons p rest ih =>
    obtain ⟨a, b⟩ := p
    by_cases hk : a = k
    · simpa [lookup_id, hk] using h
    · simp only [lookup_id, hk, if_false, List.cons_append] at h ⊢
      exact ih h

theorem lookup_id_append_new {m : List (Nat × Nat)} {k : Nat} (v : Nat)
    (h : lookup_id m k = none) : lookup_id (m ++ [(k, v)]) k = some v := by
  induction m with
  | nil => simp [lookup_id]
  | cons p rest ih =>
    obtain ⟨a, b⟩ := p
    by_cases hk : a = k
    · simp [lookup_id, hk] at h
    · simp only [lookup_id, hk, if_false, List.cons_append] at h ⊢
      exact ih h

theorem MapExtends.refl (st : BodyState) : MapExtends st st :=
  fun _ _ h => h

theorem MapExtends.trans {s1 s2 s3 : BodyState} (h1 : MapExtends s1 s2)
    (h2 : MapExtends s2 s3) : MapExtends s1 s3 :=
  fun k v h => h2 k v (h1 k v h)

/-- `translate_basic_block_id` records (or retrieves) the mapping for its
argument and extends the map. -/
theorem translate_basic_block_id_spec (st : BodyState) (h : Nat) :
    lookup_id (translate_basic_block_id st h).2.blocks_map h =
      some (translate_basic_block_id st h).1
    ∧ MapExtends st (translate_basic_block_id st h).2 := by
  unfold translate_basic_block_id
  cases hl : lookup_id st.blocks_map h with
  | some id => exact ⟨hl, MapExtends.refl st⟩
  | none =>
    constructor
    · exact lookup_id_append_new _ hl
    · intro k v hv
      exact lookup_id_append_of_some _ hv

/-- The arm translation of `translate_switch_targets` relates the source arms
to the produced arms pairwise in order: same length, the i-th value is the
decoding of the i-th source value, the i-th block id is the registered
translation of the i-th source target; and the map only grows. -/
theorem translate_switch_arms_spec (ity : IntegerTy) :
    ∀ (tmap : List (List Nat × Nat)) (st : BodyState),
    MapExtends st (translate_switch_arms ity tmap st).2
    ∧ List.Forall₂
        (fun src arm =>
          arm.1 = ScalarValue.from_le_bytes ity src.1
          ∧ lookup_id (translate_switch_arms ity tmap st).2.blocks_map src.2 =
              some arm.2)
        tmap (translate_switch_arms ity tmap st).1 := by
  intro tmap
  induction tmap with
  | nil =>
    intro st
    exact ⟨MapExtends.refl st, List.Forall₂.nil⟩
  | cons p rest ih =>
    intro st
    obtain ⟨v, tgt⟩ := p
    obtain ⟨hlook, hext⟩ := translate_basic_block_id_spec st tgt
    rcases htb : translate_basic_block_id st tgt with ⟨tgt2, st1⟩
    rw [htb] at hlook hext
    obtain ⟨hext2, hrel⟩ := ih st1
    rcases harms : translate_switch_arms ity rest st1 with ⟨arms, st2⟩
    rw [harms] at hext2 hrel
    have hres : translate_switch_arms ity ((v, tgt) :: rest) st =
        ((ScalarValue.from_le_bytes ity v, tgt2) :: arms, st2) := by
      simp [translate_switch_arms, htb, harms]
    rw [hres]
    refine ⟨hext.trans hext2, List.Forall₂.cons ⟨rfl, ?_⟩ hrel⟩
    exact hext2 tgt tgt2 hlook

/-- **C5.** `translate_switch_targets` preserves the number and the source
order of the scalar arms of a multi-way switch (the i-th produced
`(scalar value, block id)` arm decodes the i-th source value and maps the
i-th source target) and always produces the mandatory `otherwise` target;
for a boolean two-way switch it preserves both targets. -/
theorem translate_switch_targets_preserves_arms (ctx : SubCtx) (ty : Ty)
    (st : BodyState) :
    (∀ a b, ∃ a2 b2 st2,
      translate_switch_targets ctx ty (.If a b) st = .ok (.If a2 b2, st2)
      ∧ lookup_id st2.blocks_map a = some a2
      ∧ lookup_id st2.blocks_map b = some b2)
    ∧ (∀ targets_map otherwise ity,
      ctx.ty_as_integer_ty ty = some ity →
      ∃ arms otherwise2 st2,
        translate_switch_targets ctx ty (.SwitchInt targets_map otherwise) st =
          .ok (.SwitchInt ity arms otherwise2, st2)
        ∧ List.Forall₂
            (fun src arm =>
              arm.1 = ScalarValue.from_le_bytes ity src.1
              ∧ lookup_id st2.blocks_map src.2 = some arm.2)
            targets_map arms
        ∧ lookup_id st2.blocks_map otherwise = some otherwise2) := by
  constructor
  · intro a b
    obtain ⟨hla, hexta⟩ := translate_basic_block_id_spec st a
    rcases hta : translate_basic_block_id st a with ⟨a2, st1⟩
    rw [hta] at hla hexta
    obtain ⟨hlb, hextb⟩ := translate_basic_block_id_spec st1 b
    rcases htb : translate_basic_block_id st1 b with ⟨b2, st2⟩
    rw [htb] at hlb hextb
    refine ⟨a2, b2, st2, ?_, hextb a a2 hla, hlb⟩
    simp [translate_switch_targets, hta, htb]
  · intro targets_map otherwise ity hty
    obtain ⟨hext, hrel⟩ := translate_switch_arms_spec ity targets_map st
    rcases harms : translate_switch_arms ity targets_map st with ⟨arms, st1⟩
    rw [harms] at hext hrel
    obtain ⟨hlo, hexto⟩ := translate_basic_block_id_spec st1 otherwise
    rcases hto : translate_basic_block_id st1 otherwise with ⟨oth2, st2⟩
    rw [hto] at hlo hexto
    refine ⟨arms, oth2, st2, ?_, ?_, hlo⟩
    · simp [translate_switch_targets, hty, harms, hto]
    · exact hrel.imp (fun {src arm} hp => ⟨hp.1, hexto src.2 arm.2 hp.2⟩)

/-- Witness for C5 on a concrete two-arm integer switch (arm values 1 and 3,
targets 5 and 6, otherwise 9) and a concrete boolean switch. -/
theorem translate_switch_targets_preserves_arms_witness :
    (∃ a2 b2 st2,
      translate_switch_targets trivSubCtx ⟨0⟩ (.If 4 2) BodyState.init =
        .ok (.If a2 b2, st2)
      ∧ lookup_id st2.blocks_map 4 = some a2
      ∧ lookup_id st2.blocks_map 2 = some b2)
    ∧ ∃ arms otherwise2 st2,
      translate_switch_targets trivSubCtx ⟨0⟩
          (.SwitchInt [([1], 5), ([3], 6)] 9) BodyState.init =
        .ok (.SwitchInt .U32 arms otherwise2, st2)
      ∧ List.Forall₂
          (fun src arm =>
            arm.1 = ScalarValue.from_le_bytes .U32 src.1
            ∧ lookup_id st2.blocks_map src.2 = some arm.2)
          [([1], 5), ([3], 6)] arms
      ∧ lookup_id st2.blocks_map 9 = some otherwise2 := by
  have h := translate_switch_targets_preserves_arms trivSubCtx ⟨0⟩
    BodyState.init
  exact ⟨h.1 4 2, h.2 [([1], 5), ([3], 6)] 9 .U32 rfl⟩

/-- **C4.** A per-procedure body-translation error does not abort the batch:
when the body translation returns an error, `translate_function` (for any
item that is supposed to have a body) and `translate_global` still return
`Ok` with a declaration whose body id points to a freshly reserved slot, and
that slot is empty. -/
theorem body_error_does_not_abort_batch (k : ItemKind) (sig : FunSig)
    (body_res : Nat → Except TransError (Except Opaque ExprBody))
    (bodies : List (Option ExprBody))
    (hk : k ≠ .TraitDeclItem false)
    (herr : body_res sig.inputs.length = .error ())
    (herr0 : body_res 0 = .error ()) :
    translate_function (.ok k) (.ok sig) body_res bodies =
      .ok ({ kind := k, signature := sig, body := .ok bodies.length },
           bodies ++ [none])
    ∧ translate_global (.ok k) body_res bodies =
      .ok ({ kind := k, body := .ok bodies.length }, bodies ++ [none])
    ∧ (bodies ++ [none]).get? bodies.length = some none := by
  refine ⟨?_, ?_, ?_⟩
  · cases k with
    | Regular =>
      simp [translate_function, herr, bodies_reserve_slot, except_ok_bind,
        except_pure]
    | TraitImplItem =>
      simp [translate_function, herr, bodies_reserve_slot, except_ok_bind,
        except_pure]
    | TraitDeclItem hd =>
      cases hd with
      | true =>
        simp [translate_function, herr, bodies_reserve_slot, except_ok_bind,
          except_pure]
      | false => exact absurd rfl hk
  · simp [translate_global, herr0, bodies_reserve_slot, except_ok_bind,
      except_pure]
  · rw [List.get?_eq_getElem?, List.getElem?_append_right (Nat.le_refl _)]
    simp

/-- Witness for C4: a Regular function and a global whose body translation
fails still translate to `Ok`, with an empty reserved slot. -/
theorem body_error_does_not_abort_batch_witness :
    translate_function (.ok .Regular) (.ok { inputs := [] })
        (fun _ => .error ()) [] =
      .ok ({ kind := .Regular, signature := { inputs := [] },
             body := .ok 0 }, [none])
    ∧ translate_global (.ok .Regular) (fun _ => .error ()) [] =
      .ok ({ kind := .Regular, body := .ok 0 }, [none]) := by
  have h := body_error_does_not_abort_batch .Regular { inputs := [] }
    (fun _ => .error ()) [] (by simp) rfl rfl
  exact ⟨h.1, h.2.1⟩

theorem translate_body_locals_aux_indices (ctx : SubCtx) :
    ∀ (decls : List HLocalDecl) (i : Nat) (vars : List Var),
    translate_body_locals_aux ctx i decls = .ok vars →
    vars.map Var.index = List.range' i vars.length := by
  intro decls
  induction decls with
  | nil =>
    intro i vars h
    simp only [translate_body_locals_aux] at h
    cases h
    rfl
  | cons d rest ih =>
    intro i vars h
    simp only [translate_body_locals_aux] at h
    cases hty : ctx.translate_ty d.ty with
    | error e =>
      rw [hty] at h
      cases h
    | ok ty =>
      rw [hty, except_ok_bind] at h
      cases hrest : translate_body_locals_aux ctx (i + 1) rest with
      | error e =>
        rw [hrest] at h
        cases h
      | ok vs =>
        rw [hrest, except_ok_bind] at h
        cases h
        have hvs := ih (i + 1) vs hrest
        simp only [List.map_cons, List.length_cons, hvs]
        rfl

theorem translate_body_ok_shape (ctx : SubCtx) (ob : Bool)
    (opt_mir : Option HMirBody) (n : Nat) (b : ExprBody)
    (h : translate_body ctx ob opt_mir n = .ok (.ok b)) :
    b.arg_count = n
    ∧ b.locals.map Var.index = List.range b.locals.length := by
  rw [translate_body, translate_body_aux.eq_def] at h
  by_cases hob : ob = true
  · simp [hob] at h
  · simp only [hob, if_false, Bool.false_eq_true] at h
    cases opt_mir with
    | none => simp at h
    | some mir =>
      simp only at h
      cases hloc : translate_body_locals ctx mir with
      | error e => rw [hloc] at h; cases h
      | ok locals =>
        rw [hloc, except_ok_bind] at h
        cases hst : translate_transparent_expression_body ctx mir with
        | error e => rw [hst] at h; cases h
        | ok st =>
          rw [hst, except_ok_bind] at h
          cases hasm : assemble_blocks st.blocks with
          | error e => rw [hasm] at h; cases h
          | ok blocks =>
            rw [hasm, except_ok_bind] at h
            cases h
            refine ⟨rfl, ?_⟩
            have := translate_body_locals_aux_indices ctx mir.local_decls 0
              locals hloc
            simpa [List.range_eq_range'] using this

/-- **C8.** In every assembled body, `arg_count` equals the number of
signature inputs for function bodies and 0 for global bodies; the locals
table is densely indexed in source order (`locals[i].index = i`, so index 0
is the first MIR local — the return slot — and indices `1..=arg_count` the
parameters); and the body printer labels index 0 as the return value and
indices `1..=arg_count` as arguments. -/
theorem body_arg_count_and_locals_layout :
    (∀ (ctx : SubCtx) (ob : Bool) (opt_mir : Option HMirBody) (sig : FunSig)
       (k : ItemKind) (bodies : List (Option ExprBody)) (b : ExprBody),
      k ≠ .TraitDeclItem false →
      translate_body ctx ob opt_mir sig.inputs.length = .ok (.ok b) →
      translate_function (.ok k) (.ok sig) (translate_body ctx ob opt_mir)
          bodies =
        .ok ({ kind := k, signature := sig, body := .ok bodies.length },
             bodies ++ [some b])
      ∧ b.arg_count = sig.inputs.length)
    ∧ (∀ (ctx : SubCtx) (ob : Bool) (opt_mir : Option HMirBody)
         (k : ItemKind) (bodies : List (Option ExprBody)) (b : ExprBody),
      translate_body ctx ob opt_mir 0 = .ok (.ok b) →
      translate_global (.ok k) (translate_body ctx ob opt_mir) bodies =
        .ok ({ kind := k, body := .ok bodies.length }, bodies ++ [some b])
      ∧ b.arg_count = 0)
    ∧ (∀ (ctx : SubCtx) (ob : Bool) (opt_mir : Option HMirBody) (n : Nat)
         (b : ExprBody),
      translate_body ctx ob opt_mir n = .ok (.ok b) →
      b.locals.map Var.index = List.range b.locals.length)
    ∧ (∀ (ac : Nat) (v : Var), v.index = 0 →
      local_comment ac v = "// return")
    ∧ (∀ (ac : Nat) (v : Var), v.index ≠ 0 → v.index ≤ ac →
      local_comment ac v = "// arg #" ++ toString v.index) := by
  refine ⟨?_, ?_, ?_, ?_, ?_⟩
  · intro ctx ob opt_mir sig k bodies b hk hb
    refine ⟨?_, (translate_body_ok_shape ctx ob opt_mir _ b hb).1⟩
    cases k with
    | Regular =>
      simp [translate_function, hb, bodies_push, except_ok_bind, except_pure]
    | TraitImplItem =>
      simp [translate_function, hb, bodies_push, except_ok_bind, except_pure]
    | TraitDeclItem hd =>
      cases hd with
      | true =>
        simp [translate_function, hb, bodies_push, except_ok_bind,
          except_pure]
      | false => exact absurd rfl hk
  · intro ctx ob opt_mir k bodies b hb
    refine ⟨?_, (translate_body_ok_shape ctx ob opt_mir _ b hb).1⟩
    simp [translate_global, hb, bodies_push, except_ok_bind, except_pure]
  · intro ctx ob opt_mir n b hb
    exact (translate_body_ok_shape ctx ob opt_mir n b hb).2
  · intro ac v h
    simp [local_comment, h]
  · intro ac v h0 hle
    simp [local_comment, h0, hle]

/-- Witness for C8 on a one-input function whose MIR body is a single
`Return` block with one local. -/
theorem body_arg_count_and_locals_layout_witness :
    translate_function (.ok .Regular) (.ok { inputs := [⟨0⟩] })
        (translate_body trivSubCtx false
          (some { local_decls := [{ name := none, ty := ⟨0⟩ }],
                  basic_blocks := [{ statements := [],
                                     terminator := some .Return }] })) [] =
      .ok ({ kind := .Regular, signature := { inputs := [⟨0⟩] },
             body := .ok 0 },
           [some { arg_count := 1,
                   locals := [{ index := 0, name := none, ty := ⟨0⟩ }],
                   body := [{ statements := [],
                              terminator := .Return }] }])
    ∧ local_comment 1 { index := 0, name := none, ty := ⟨0⟩ } =
        "// return" := by
  have h := body_arg_count_and_locals_layout
  refine ⟨(h.1 trivSubCtx false
    (some { local_decls := [{ name := none, ty := ⟨0⟩ }],
            basic_blocks := [{ statements := [],
                               terminator := some .Return }] })
    { inputs := [⟨0⟩] } .Regular [] _ (by simp) (by rfl)).1, ?_⟩
  exact h.2.2.2.1 1 { index := 0, name := none, ty := ⟨0⟩ } rfl

/-- **C2.** Two-run determinism: running the per-body translation pipeline
twice on the same input graph, and structuring the same block graph twice,
yield identical results (every stage of the embedding is a pure function of
its input; no unordered iteration affects arm or sequence order). -/
theorem pipeline_two_run_determinism (ctx : SubCtx) (b1 b2 : HMirBody)
    (g1 g2 : List BlockData) (hb : b1 = b2) (hg : g1 = g2) :
    translate_transparent_expression_body ctx b1 =
      translate_transparent_expression_body ctx b2
    ∧ structure_graph g1 = structure_graph g2 := by
  subst hb
  subst hg
  exact ⟨rfl, rfl⟩

/-- Witness for C2 on a concrete one-block graph (both runs produce the same
value). -/
theorem pipeline_two_run_determinism_witness :
    translate_transparent_expression_body trivSubCtx
        { local_decls := [],
          basic_blocks := [{ statements := [], terminator := some .Return }] }
      =
      translate_transparent_expression_body trivSubCtx
        { local_decls := [],
          basic_blocks := [{ statements := [], terminator := some .Return }] }
    ∧ structure_graph [{ statements := [], terminator := .Return }] =
      structure_graph [{ statements := [], terminator := .Return }] :=
  pipeline_two_run_determinism trivSubCtx
    { local_decls := [],
      basic_blocks := [{ statements := [], terminator := some .Return }] }
    { local_decls := [],
      basic_blocks := [{ statements := [], terminator := some .Return }] }
    [{ statements := [], terminator := .Return }]
    [{ statements := [], terminator := .Return }] rfl rfl

theorem lookup_id_eq_none_iff {m : List (Nat × Nat)} {k : Nat} :
    lookup_id m k = none ↔ k ∉ m.map Prod.fst := by
  induction m with
  | nil => simp [lookup_id]
  | cons p rest ih =>
    obtain ⟨a, b⟩ := p
    by_cases hk : a = k
    · subst hk
      simp [lookup_id]
    · simp [lookup_id, hk, ih, Ne.symm hk]

theorem lookup_id_of_mem_nodup {m : List (Nat × Nat)}
    (hnd : (m.map Prod.fst).Nodup) {k v : Nat} (hmem : (k, v) ∈ m) :
    lookup_id m k = some v := by
  induction m with
  | nil => simp at hmem
  | cons p rest ih =>
    obtain ⟨a, b⟩ := p
    simp only [List.map_cons, List.nodup_cons] at hnd
    rcases List.mem_cons.mp hmem with heq | hrest
    · cases heq
      simp [lookup_id]
    · by_cases hk : a = k
      · subst hk
        exact absurd (List.mem_map.mpr ⟨(a, v), hrest, rfl⟩) hnd.1
      · simp only [lookup_id, hk, if_false]
        exact ih hnd.2 hrest

/-- `translate_basic_block_id` preserves the worklist invariant (a target
known to be reachable may be registered) and never touches the translated
blocks. -/
theorem StInv.tbbid {body : HMirBody} {st : BodyState} {j : Nat}
    (h : StInv body st j) {hid : Nat} (hr : Reach body hid) :
    StInv body (translate_basic_block_id st hid).2 j
    ∧ (translate_basic_block_id st hid).2.blocks = st.blocks := by
  obtain ⟨h1, h2, h3, h4, h5, h6, h7, h8⟩ := h
  unfold translate_basic_block_id
  cases hl : lookup_id st.blocks_map hid with
  | some id => exact ⟨⟨h1, h2, h3, h4, h5, h6, h7, h8⟩, rfl⟩
  | none =>
    have hnot : hid ∉ st.blocks_map.map Prod.fst :=
      lookup_id_eq_none_iff.mp hl
    have hjlen : j ≤ (st.blocks_map.map Prod.fst).length := by
      simpa using h6
    refine ⟨⟨?_, ?_, h3, ?_, h5, ?_, ?_, ?_⟩, rfl⟩
    · simp [fresh_block_id, h1, List.range_succ]
    · simp only [fresh_block_id, List.map_append, List.map_cons,
        List.map_nil]
      rw [List.nodup_append]
      exact ⟨h2, List.nodup_singleton _, by simpa using hnot⟩
    · simp only [fresh_block_id, List.map_append, List.map_cons,
        List.map_nil, h4]
      rw [List.drop_append_of_le_length hjlen]
    · simpa [fresh_block_id] using Nat.le_succ_of_le h6
    · cases hm : st.blocks_map with
      | nil => rw [hm] at h7; cases h7
      | cons p rest =>
        rw [hm] at h7
        simpa [fresh_block_id, hm] using h7
    · intro p hp
      simp only [fresh_block_id, List.mem_append, List.mem_cons,
        List.not_mem_nil, or_false] at hp
      rcases hp with hp | hp
      · exact h8 p hp
      · subst hp
        exact hr

/-- The switch-arm fold preserves the worklist invariant when every arm
target is reachable. -/
theorem StInv.switch_arms {body : HMirBody} {j : Nat} (ity : IntegerTy) :
    ∀ (tmap : List (List Nat × Nat)) (st : BodyState), StInv body st j →
    (∀ t ∈ tmap.map Prod.snd, Reach body t) →
    StInv body (translate_switch_arms ity tmap st).2 j
    ∧ (translate_switch_arms ity tmap st).2.blocks = st.blocks := by
  intro tmap
  induction tmap with
  | nil =>
    intro st h _
    exact ⟨h, rfl⟩
  | cons p rest ih =>
    intro st h hr
    obtain ⟨v, tgt⟩ := p
    have hrt : Reach body tgt := hr tgt (by simp)
    obtain ⟨h1, hb1⟩ := h.tbbid hrt
    rcases htb : translate_basic_block_id st tgt with ⟨tgt2, st1⟩
    rw [htb] at h1 hb1
    have hrrest : ∀ t ∈ rest.map Prod.snd, Reach body t := by
      intro t ht
      exact hr t (by simp [ht])
    obtain ⟨h2, hb2⟩ := ih st1 h1 hrrest
    rcases harms : translate_switch_arms ity rest st1 with ⟨arms, st2⟩
    rw [harms] at h2 hb2
    have hres : translate_switch_arms ity ((v, tgt) :: rest) st =
        ((ScalarValue.from_le_bytes ity v, tgt2) :: arms, st2) := by
      simp [translate_switch_arms, htb, harms]
    rw [hres]
    exact ⟨h2, hb2.trans hb1⟩

/-- `translate_switch_targets` preserves the worklist invariant when every
target is reachable. -/
theorem StInv.switch_targets {body : HMirBody} {j : Nat} (ctx : SubCtx)
    (ty : Ty) (targets : HSwitchTargets) {st : BodyState}
    (h : StInv body st j)
    (hr : ∀ t ∈ targets.targetsList, Reach body t) :
    ∀ {out}, translate_switch_targets ctx ty targets st = .ok out →
    StInv body out.2 j ∧ out.2.blocks = st.blocks := by
  intro out heq
  cases targets with
  | If a b =>
    have hra : Reach body a := hr a (by simp [HSwitchTargets.targetsList])
    have hrb : Reach body b := hr b (by simp [HSwitchTargets.targetsList])
    obtain ⟨h1, hb1⟩ := h.tbbid hra
    rcases hta : translate_basic_block_id st a with ⟨a2, st1⟩
    rw [hta] at h1 hb1
    obtain ⟨h2, hb2⟩ := h1.tbbid hrb
    rcases htb : translate_basic_block_id st1 b with ⟨b2, st2⟩
    rw [htb] at h2 hb2
    simp only [translate_switch_targets, hta, htb, Except.ok.injEq] at heq
    rw [← heq]
    exact ⟨h2, hb2.trans hb1⟩
  | SwitchInt tmap otherwise =>
    cases hty : ctx.ty_as_integer_ty ty with
    | none => simp [translate_switch_targets, hty] at heq
    | some ity =>
      have hrarms : ∀ t ∈ tmap.map Prod.snd, Reach body t := by
        intro t ht
        exact hr t (by simp [HSwitchTargets.targetsList, ht])
      have hro : Reach body otherwise :=
        hr otherwise (by simp [HSwitchTargets.targetsList])
      obtain ⟨h1, hb1⟩ := StInv.switch_arms ity tmap st h hrarms
      rcases harms : translate_switch_arms ity tmap st with ⟨arms, st1⟩
      rw [harms] at h1 hb1
      obtain ⟨h2, hb2⟩ := h1.tbbid hro
      rcases hto : translate_basic_block_id st1 otherwise with ⟨oth2, st2⟩
      rw [hto] at h2 hb2
      simp only [translate_switch_targets, hty, harms, hto,
        Except.ok.injEq] at heq
      rw [← heq]
      exact ⟨h2, hb2.trans hb1⟩

/-- `translate_function_call` preserves the worklist invariant when the
return target (if any) is reachable. -/
theorem StInv.function_call {body : HMirBody} {j : Nat} (ctx : SubCtx)
    (stmts : List RawStatement) (f : HFunOperand) (generics : HSubsts)
    (args : List HOperand) (dest : HPlace) (target : Option Nat)
    (trait_refs : HTraitRefs) (trait_info : Option HImplExpr)
    {st : BodyState} (h : StInv body st j)
    (hr : ∀ t ∈ target.toList, Reach body t) :
    ∀ {out}, translate_function_call ctx stmts f generics args dest target
        trait_refs trait_info st = .ok out →
    StInv body out.2.2 j ∧ out.2.2.blocks = st.blocks := by
  intro out heq
  rw [translate_function_call.eq_def] at heq
  cases hlv : ctx.translate_place dest with
  | error e =>
    rw [hlv, except_error_bind] at heq
    cases heq
  | ok lval =>
    rw [hlv, except_ok_bind] at heq
    cases target with
    | none =>
      simp only at heq
      cases f with
      | Id def_id =>
        dsimp only at heq
        cases hfid : translate_fun_decl_id_with_args ctx def_id generics
            (some args) trait_refs trait_info with
        | error e => rw [hfid, except_error_bind] at heq; cases heq
        | ok fid =>
          rw [hfid, except_ok_bind] at heq
          cases fid with
          | Panic name =>
            simp only [Except.ok.injEq] at heq
            rw [← heq]
            exact ⟨h, rfl⟩
          | Fun fid =>
            cases hargs : fid.args with
            | none => simp [hargs] at heq
            | some args2 =>
              simp only [hargs, finish_call, Except.ok.injEq] at heq
              rw [← heq]
              exact ⟨h, rfl⟩
      | Move p =>
        dsimp only at heq
        cases hp : ctx.translate_place p with
        | error e => rw [hp, except_error_bind] at heq; cases heq
        | ok p2 =>
          rw [hp, except_ok_bind] at heq
          cases ha : translate_arguments ctx args with
          | error e => rw [ha, except_error_bind] at heq; cases heq
          | ok args2 =>
            rw [ha, except_ok_bind] at heq
            simp only [finish_call, Except.ok.injEq] at heq
            rw [← heq]
            exact ⟨h, rfl⟩
    | some t =>
      have hrt : Reach body t := hr t (by simp)
      obtain ⟨h1, hb1⟩ := h.tbbid hrt
      rcases htb : translate_basic_block_id st t with ⟨t2, st1⟩
      rw [htb] at h1 hb1
      simp only [htb] at heq
      cases f with
      | Id def_id =>
        dsimp only at heq
        cases hfid : translate_fun_decl_id_with_args ctx def_id generics
            (some args) trait_refs trait_info with
        | error e => rw [hfid, except_error_bind] at heq; cases heq
        | ok fid =>
          rw [hfid, except_ok_bind] at heq
          cases fid with
          | Panic name => simp at heq
          | Fun fid =>
            cases hargs : fid.args with
            | none => simp [hargs] at heq
            | some args2 =>
              simp only [hargs, finish_call, Except.ok.injEq] at heq
              rw [← heq]
              exact ⟨h1, hb1⟩
      | Move p =>
        dsimp only at heq
        cases hp : ctx.translate_place p with
        | error e => rw [hp, except_error_bind] at heq; cases heq
        | ok p2 =>
          rw [hp, except_ok_bind] at heq
          cases ha : translate_arguments ctx args with
          | error e => rw [ha, except_error_bind] at heq; cases heq
          | ok args2 =>
            rw [ha, except_ok_bind] at heq
            simp only [finish_call, Except.ok.injEq] at heq
            rw [← heq]
            exact ⟨h1, hb1⟩

theorem HTerminatorKind.targets_switch (d : HOperand) (tg : HSwitchTargets) :
    (HTerminatorKind.SwitchInt d tg).targets = tg.targetsList := by
  cases tg <;> rfl

/-- `translate_terminator` preserves the worklist invariant when every
terminator target is reachable, and only extends the registration state (the
translated blocks are untouched). -/
theorem StInv.terminator {body : HMirBody} {j : Nat} (ctx : SubCtx)
    (term : HTerminatorKind) (stmts : List RawStatement) {st : BodyState}
    (h : StInv body st j) (hr : ∀ t ∈ term.targets, Reach body t) :
    ∀ {out}, translate_terminator ctx term stmts st = .ok out →
    StInv body out.2.2 j ∧ out.2.2.blocks = st.blocks := by
  intro out heq
  cases term with
  | Goto t =>
    have hrt : Reach body t := hr t (by simp [HTerminatorKind.targets])
    obtain ⟨h1, hb1⟩ := h.tbbid hrt
    rcases htb : translate_basic_block_id st t with ⟨t2, st1⟩
    rw [htb] at h1 hb1
    simp only [translate_terminator, htb, Except.ok.injEq] at heq
    rw [← heq]
    exact ⟨h1, hb1⟩
  | SwitchInt discr targets =>
    rw [translate_terminator] at heq
    cases hop : ctx.translate_operand_with_type discr with
    | error e => rw [hop, except_error_bind] at heq; cases heq
    | ok dt =>
      rw [hop, except_ok_bind] at heq
      obtain ⟨discr2, dty⟩ := dt
      dsimp only at heq
      cases hsw : translate_switch_targets ctx dty targets st with
      | error e => rw [hsw, except_error_bind] at heq; cases heq
      | ok tgst =>
        rw [hsw, except_ok_bind] at heq
        have hrt : ∀ t ∈ targets.targetsList, Reach body t := by
          intro t ht
          exact hr t (by rw [HTerminatorKind.targets_switch]; exact ht)
        obtain ⟨h1, hb1⟩ := h.switch_targets ctx dty targets hrt hsw
        obtain ⟨tg2, st1⟩ := tgst
        simp only [except_pure, Except.ok.injEq] at heq
        rw [← heq]
        exact ⟨h1, hb1⟩
  | UnwindResume => cases heq
  | UnwindTerminate => cases heq
  | Return =>
    simp only [translate_terminator, Except.ok.injEq] at heq
    rw [← heq]
    exact ⟨h, rfl⟩
  | Unreachable =>
    simp only [translate_terminator, Except.ok.injEq] at heq
    rw [← heq]
    exact ⟨h, rfl⟩
  | Drop place t =>
    rw [translate_terminator] at heq
    cases hp : ctx.translate_place place with
    | error e => rw [hp, except_error_bind] at heq; cases heq
    | ok p2 =>
      rw [hp, except_ok_bind] at heq
      have hrt : Reach body t := hr t (by simp [HTerminatorKind.targets])
      obtain ⟨h1, hb1⟩ := h.tbbid hrt
      rcases htb : translate_basic_block_id st t with ⟨t2, st1⟩
      rw [htb] at h1 hb1
      simp only [htb, except_pure, Except.ok.injEq] at heq
      rw [← heq]
      exact ⟨h1, hb1⟩
  | Call f generics args destination target trait_refs trait_info =>
    rw [translate_terminator] at heq
    exact h.function_call ctx stmts f generics args destination target
      trait_refs trait_info (by simpa [HTerminatorKind.targets] using hr) heq
  | Assert cond expected t =>
    rw [translate_terminator] at heq
    cases hc : ctx.translate_operand cond with
    | error e => rw [hc, except_error_bind] at heq; cases heq
    | ok c2 =>
      rw [hc, except_ok_bind] at heq
      have hrt : Reach body t := hr t (by simp [HTerminatorKind.targets])
      obtain ⟨h1, hb1⟩ := h.tbbid hrt
      rcases htb : translate_basic_block_id st t with ⟨t2, st1⟩
      rw [htb] at h1 hb1
      simp only [htb, except_pure, Except.ok.injEq] at heq
      rw [← heq]
      exact ⟨h1, hb1⟩
  | FalseEdge rt it =>
    have hrt : Reach body rt := hr rt (by simp [HTerminatorKind.targets])
    obtain ⟨h1, hb1⟩ := h.tbbid hrt
    rcases htb : translate_basic_block_id st rt with ⟨t2, st1⟩
    rw [htb] at h1 hb1
    simp only [translate_terminator, htb, Except.ok.injEq] at heq
    rw [← heq]
    exact ⟨h1, hb1⟩
  | FalseUnwind rt =>
    have hrt : Reach body rt := hr rt (by simp [HTerminatorKind.targets])
    obtain ⟨h1, hb1⟩ := h.tbbid hrt
    rcases htb : translate_basic_block_id st rt with ⟨t2, st1⟩
    rw [htb] at h1 hb1
    simp only [translate_terminator, htb, Except.ok.injEq] at heq
    rw [← heq]
    exact ⟨h1, hb1⟩
  | InlineAsm => cases heq
  | CoroutineDrop => cases heq
  | TailCall => cases heq
  | Yield => cases heq

/-- One iteration of the worklist: popping the next registered block and
translating it preserves the invariant, moving the cursor by one. -/
theorem stinv_block_step (ctx : SubCtx) (body : HMirBody) (st : BodyState)
    (bid : Nat) (rest : List Nat)
    (h : StInv body st st.blocks.length)
    (hstack : st.blocks_stack = bid :: rest) :
    ∀ {st1}, translate_basic_block ctx body bid
        { st with blocks_stack := rest } = .ok st1 →
    StInv body st1 st1.blocks.length := by
  intro st1 heq
  obtain ⟨h1, h2, h3, h4, h5, h6, h7, h8⟩ := h
  set k := st.blocks.length with hk
  set keys := st.blocks_map.map Prod.fst with hkeys
  have hdrop : keys.drop k = bid :: rest := by rw [← h4, hstack]
  have hklen : k < keys.length := by
    by_contra hle
    push_neg at hle
    rw [List.drop_eq_nil_of_le hle] at hdrop
    cases hdrop
  have hmaplen : st.blocks_map.length = st.next_block_id := by
    have := congrArg List.length h1
    simpa using this
  have hkeyslen : keys.length = st.blocks_map.length := by simp [hkeys]
  have hgetk : keys[k]? = some bid := by
    have h0 : (keys.drop k)[0]? = some bid := by rw [hdrop]; simp
    rw [List.getElem?_drop] at h0
    simpa using h0
  have hvalk : (st.blocks_map.map Prod.snd)[k]? = some k := by
    rw [h1]
    have hlt : k < st.next_block_id := by omega
    simp [List.getElem?_range, hlt]
  have hmapk : st.blocks_map[k]? = some (bid, k) := by
    rw [hkeys, List.getElem?_map] at hgetk
    rw [List.getElem?_map] at hvalk
    cases hmk : st.blocks_map[k]? with
    | none => rw [hmk] at hgetk; cases hgetk
    | some p =>
      rw [hmk] at hgetk hvalk
      simp at hgetk hvalk
      obtain ⟨a, b⟩ := p
      simp_all
  have hmem : (bid, k) ∈ st.blocks_map := by
    have hlt : k < st.blocks_map.length := by omega
    rw [List.getElem?_eq_getElem hlt, Option.some.injEq] at hmapk
    rw [← hmapk]
    exact List.getElem_mem hlt
  have hlook : lookup_id st.blocks_map bid = some k :=
    lookup_id_of_mem_nodup h2 hmem
  have hreach : Reach body bid := h8 (bid, k) hmem
  have hrestdrop : rest = keys.drop (k + 1) := by
    have hdd : keys.drop (k + 1) = (keys.drop k).drop 1 := by
      rw [List.drop_drop]
    rw [hdd, hdrop]
    rfl
  have hp : StInv body { st with blocks_stack := rest } (k + 1) := by
    refine ⟨h1, h2, h3, ?_, ?_, ?_, h7, h8⟩
    · show rest = (st.blocks_map.map Prod.fst).drop (k + 1)
      rw [← hkeys]
      exact hrestdrop
    · show st.blocks.length ≤ k + 1
      omega
    · show k + 1 ≤ st.blocks_map.length
      omega
  rw [translate_basic_block] at heq
  have htbb : translate_basic_block_id { st with blocks_stack := rest } bid =
      (k, { st with blocks_stack := rest }) := by
    unfold translate_basic_block_id
    simp only [hlook]
  rw [htbb] at heq
  dsimp only at heq
  cases hget : body.basic_blocks.get? bid with
  | none => rw [hget] at heq; cases heq
  | some block =>
    rw [hget] at heq
    dsimp only at heq
    cases hsts : translate_statements ctx block.statements with
    | error e => rw [hsts, except_error_bind] at heq; cases heq
    | ok stmts =>
      rw [hsts, except_ok_bind] at heq
      cases hterm : block.terminator with
      | none => rw [hterm] at heq; cases heq
      | some term =>
        rw [hterm] at heq
        dsimp only at heq
        cases htm : translate_terminator ctx term stmts
            { st with blocks_stack := rest } with
        | error e => rw [htm, except_error_bind] at heq; cases heq
        | ok out =>
          rw [htm, except_ok_bind] at heq
          obtain ⟨stm2, tm2, st2⟩ := out
          have hsuccs : body.succs bid = term.targets := by
            rw [List.get?_eq_getElem?] at hget
            simp [HMirBody.succs, hget, hterm]
          have hrt : ∀ t ∈ term.targets, Reach body t := by
            intro t ht
            exact Reach.step hreach (by rw [hsuccs]; exact ht)
          obtain ⟨hinv2, hblk2⟩ := hp.terminator ctx term stmts hrt htm
          dsimp only at hinv2 hblk2
          simp only [except_pure, Except.ok.injEq] at heq
          have hblocks : st2.blocks = st.blocks := by simpa using hblk2
          have hlen2 : st2.blocks.length = k := by rw [hblocks]
          have hlen :
              (push_block st2 k
                { statements := stm2, terminator := tm2 }).blocks.length =
              k + 1 := by
            simp [push_block, hlen2]
          rw [← heq, hlen]
          obtain ⟨g1, g2, g3, g4, g5, g6, g7, g8⟩ := hinv2
          refine ⟨g1, g2, ?_, g4, ?_, g6, g7, g8⟩
          · show (st2.blocks ++
                [(k, ({ statements := stm2,
                        terminator := tm2 } : BlockData))]).map Prod.fst =
              List.range (st2.blocks ++
                [(k, ({ statements := stm2,
                        terminator := tm2 } : BlockData))]).length
            simp [hblocks, h3, List.range_succ]
          · show (st2.blocks ++
                [(k, ({ statements := stm2,
                        terminator := tm2 } : BlockData))]).length ≤ k + 1
            simp [hlen2]

/-- The worklist loop preserves the invariant up to completion. -/
theorem stinv_loop (ctx : SubCtx) (body : HMirBody) :
    ∀ (fuel : Nat) (st : BodyState), StInv body st st.blocks.length →
    ∀ {st2}, translate_blocks_loop ctx body fuel st = .ok st2 →
    StInv body st2 st2.blocks.length := by
  intro fuel
  induction fuel with
  | zero =>
    intro st h st2 heq
    cases heq
  | succ fuel ih =>
    intro st h st2 heq
    rw [translate_blocks_loop] at heq
    cases hstack : st.blocks_stack with
    | nil =>
      rw [hstack] at heq
      cases heq
      exact h
    | cons bid rest =>
      rw [hstack] at heq
      dsimp only at heq
      cases hbb : translate_basic_block ctx body bid
          { st with blocks_stack := rest } with
      | error e => rw [hbb, except_error_bind] at heq; cases heq
      | ok st1 =>
        rw [hbb, except_ok_bind] at heq
        exact ih st1 (stinv_block_step ctx body st bid rest h hstack hbb) heq

/-- The invariant holds right after the start block is registered. -/
theorem stinv_start (body : HMirBody) :
    StInv body
      { blocks_map := [(0, 0)], next_block_id := 1, blocks_stack := [0],
        blocks := [] } 0 := by
  refine ⟨?_, ?_, rfl, rfl, Nat.le_refl 0, by simp, rfl, ?_⟩
  · simp [List.range_succ]
  · simp
  · intro p hp
    simp only [List.mem_singleton] at hp
    subst hp
    exact Reach.start

/-- **C6.** Every block that is assigned an id by the worklist translation is
reachable from the entry block: on success, every hax block registered in the
produced block map is reachable via terminator targets from `START_BLOCK`. -/
theorem worklist_registers_only_reachable (ctx : SubCtx) (body : HMirBody)
    (st2 : BodyState)
    (h : translate_transparent_expression_body ctx body = .ok st2) :
    ∀ p ∈ st2.blocks_map, Reach body p.1 := by
  have hinit : translate_transparent_expression_body ctx body =
      translate_blocks_loop ctx body body.loop_fuel
        { blocks_map := [(0, 0)], next_block_id := 1, blocks_stack := [0],
          blocks := [] } := rfl
  rw [hinit] at h
  have hfin := stinv_loop ctx body body.loop_fuel _ (stinv_start body) h
  exact hfin.2.2.2.2.2.2.2

/-- Witness for C6 on a two-block body `0 → 1 → Return`: the translation
succeeds with exactly blocks 0 and 1 registered, and block 1 is reachable. -/
theorem worklist_registers_only_reachable_witness :
    translate_transparent_expression_body trivSubCtx
        { local_decls := [],
          basic_blocks :=
            [{ statements := [], terminator := some (.Goto 1) },
             { statements := [], terminator := some .Return }] } =
      .ok { blocks_map := [(0, 0), (1, 1)], next_block_id := 2,
            blocks_stack := [],
            blocks := [(0, { statements := [], terminator := .Goto 1 }),
                       (1, { statements := [], terminator := .Return })] }
    ∧ Reach
        { local_decls := [],
          basic_blocks :=
            [{ statements := [], terminator := some (.Goto 1) },
             { statements := [], terminator := some .Return }] } 1 := by
  have h := worklist_registers_only_reachable trivSubCtx
    { local_decls := [],
      basic_blocks :=
        [{ statements := [], terminator := some (.Goto 1) },
         { statements := [], terminator := some .Return }] }
    { blocks_map := [(0, 0), (1, 1)], next_block_id := 2,
      blocks_stack := [],
      blocks := [(0, { statements := [], terminator := .Goto 1 }),
                 (1, { statements := [], terminator := .Return })] }
    (by rfl)
  exact ⟨rfl, h (1, 1) (by simp)⟩

theorem assemble_blocks_aux_of_range :
    ∀ (bs : List (Nat × BlockData)) (acc : List BlockData),
    bs.map Prod.fst = List.range' acc.length bs.length →
    assemble_blocks_aux bs acc = .ok (acc ++ bs.map Prod.snd) := by
  intro bs
  induction bs with
  | nil =>
    intro acc h
    simp [assemble_blocks_aux]
  | cons p rest ih =>
    intro acc h
    obtain ⟨id, blk⟩ := p
    simp only [List.map_cons, List.length_cons] at h
    have hrange : List.range' acc.length (rest.length + 1) =
        acc.length :: List.range' (acc.length + 1) rest.length := rfl
    rw [hrange] at h
    obtain ⟨hid, hrest⟩ := List.cons.injEq _ _ _ _ ▸ h
    have hid2 : id = acc.length := by
      simpa using congrArg (fun l => l.head?) h
    have hrest2 : rest.map Prod.fst =
        List.range' (acc ++ [blk]).length rest.length := by
      have := congrArg List.tail h
      simpa using this
    simp only [assemble_blocks_aux, hid2, if_pos rfl]
    rw [ih (acc ++ [blk]) hrest2]
    simp

/-- **C7.** Block ids are dense and start at the entry: the entry block is
assigned `START_BLOCK_ID` (= 0), it is the first registration, and in the
assembled body the i-th stored block has id i, so the
`assert!(id == new_id)` rebuild of `translate_body_aux` always succeeds and
returns the blocks in id order. -/
theorem block_ids_dense_and_start (ctx : SubCtx) (body : HMirBody)
    (st2 : BodyState)
    (h : translate_transparent_expression_body ctx body = .ok st2) :
    (translate_basic_block_id BodyState.init START_BLOCK).1 = START_BLOCK_ID
    ∧ lookup_id st2.blocks_map START_BLOCK = some START_BLOCK_ID
    ∧ st2.blocks.map Prod.fst = List.range st2.blocks.length
    ∧ assemble_blocks st2.blocks = .ok (st2.blocks.map Prod.snd) := by
  have hinit : translate_transparent_expression_body ctx body =
      translate_blocks_loop ctx body body.loop_fuel
        { blocks_map := [(0, 0)], next_block_id := 1, blocks_stack := [0],
          blocks := [] } := rfl
  rw [hinit] at h
  have hfin := stinv_loop ctx body body.loop_fuel _ (stinv_start body) h
  obtain ⟨g1, g2, g3, g4, g5, g6, g7, g8⟩ := hfin
  refine ⟨rfl, ?_, g3, ?_⟩
  · have hmem : (START_BLOCK, START_BLOCK_ID) ∈ st2.blocks_map := by
      cases hm : st2.blocks_map with
      | nil => rw [hm] at g7; cases g7
      | cons p rest =>
        rw [hm] at g7
        simp only [List.head?_cons, Option.some.injEq] at g7
        rw [g7]
        exact List.mem_cons_self _ _
    exact lookup_id_of_mem_nodup g2 hmem
  · rw [assemble_blocks]
    have := assemble_blocks_aux_of_range st2.blocks []
      (by simpa [List.range_eq_range'] using g3)
    simpa using this

/-- Witness for C7 on the two-block body `0 → 1 → Return`: the start block
got id 0 and the assembled vector holds the blocks in id order. -/
theorem block_ids_dense_and_start_witness :
    lookup_id [(0, 0), (1, 1)] START_BLOCK = some START_BLOCK_ID
    ∧ assemble_blocks
        [(0, { statements := [], terminator := .Goto 1 }),
         (1, { statements := [], terminator := .Return })] =
      .ok [{ statements := [], terminator := .Goto 1 },
           { statements := [], terminator := .Return }] := by
  have h := block_ids_dense_and_start trivSubCtx
    { local_decls := [],
      basic_blocks :=
        [{ statements := [], terminator := some (.Goto 1) },
         { statements := [], terminator := some .Return }] }
    { blocks_map := [(0, 0), (1, 1)], next_block_id := 2,
      blocks_stack := [],
      blocks := [(0, { statements := [], terminator := .Goto 1 }),
                 (1, { statements := [], terminator := .Return })] }
    (by rfl)
  exact ⟨h.2.1, h.2.2.2⟩

/-- Witness for C10 on a concrete two-element locals table. -/
theorem fresh_var_dense_witness :
    (fresh_var [⟨0, none, ⟨0⟩⟩, ⟨1, some "x", ⟨1⟩⟩] none ⟨2⟩).1 = 2
    ∧ ((fresh_var [⟨0, none, ⟨0⟩⟩, ⟨1, some "x", ⟨1⟩⟩] none ⟨2⟩).2.get
        ⟨2, by decide⟩).index = 2 := by
  have h := fresh_var_dense [⟨0, none, ⟨0⟩⟩, ⟨1, some "x", ⟨1⟩⟩] none ⟨2⟩
    (by decide)
  exact ⟨h.1, h.2 2 (by decide)⟩

end Charon
